import Mathlib

/-! Verification of the BitReader_3_0 legacy bitcode reader
(`bcinfo/BitReader_3_0/BitcodeReader.cpp`).

This file gives a shallow embedding of the parts of the reader that the
spec's claims are about, and proves or refutes each claim against the
embedding.  Machine integers are modelled as `Nat` (the C++ code works
on `uint64_t` record words); where two's-complement wrap-around matters
it is written out as `% 2 ^ 64`.
-/

namespace BitReader30

/-- The error taxonomy of the reader (`enum class BitcodeError` in
`BitcodeReader.h`, used throughout `BitcodeReader.cpp`). -/
inductive BitcodeError where
  | InvalidBitcodeSignature
  | InvalidBitcodeWrapperHeader
  | MalformedBlock
  | InvalidMultipleBlocks
  | InvalidRecord
  | InvalidValue
  | InvalidType
  | InvalidTypeForValue
  | InvalidTYPETable
  | InvalidID
  | InvalidConstantReference
  | InvalidInstructionWithNoBB
  | ExpectedConstant
  | ConflictingMETADATAKINDRecords
  | InsufficientFunctionProtos
  | NeverResolvedValueFoundInFunction
  | MalformedGlobalInitializerSet
  | CouldNotFindFunctionInStream
  deriving DecidableEq, Repr

/-! C1: sign-rotated value decoding (`decodeSignRotatedValue`, lines 1469-1476) -/

/-- The `BitcodeReader::decodeSignRotatedValue` (BitcodeReader.cpp:1469).
The argument is a 64-bit word; `-(V >> 1)` is `uint64_t` negation,
i.e. subtraction from `2^64` modulo `2^64`. -/
def decodeSignRotatedValue (V : Nat) : Nat :=
  if V % 2 = 0 then V / 2
  else if V ≠ 1 then (2 ^ 64 - V / 2) % 2 ^ 64
  else 2 ^ 63

/-- Modelled from the spec: the sign-rotated *encoding* (the writer side is
out of scope of this repository; the spec's glossary defines the encoding as
"the low bit carries the sign", and P1 asserts `decode(encode(x)) = x`).
A non-negative `x` is stored as `2*x`; a negative `x` as `2*(-x) + 1`,
both reduced modulo `2^64` (`INT64_MIN` therefore encodes to `1`). -/
def encodeSignRotatedValue (x : Int) : Nat :=
  if 0 ≤ x then (2 * x.toNat) % 2 ^ 64 else (2 * (-x).toNat + 1) % 2 ^ 64

/-- Reinterpret a 64-bit word as a signed two's-complement `int64`. -/
def toInt64 (w : Nat) : Int :=
  if w < 2 ^ 63 then (w : Int) else (w : Int) - 2 ^ 64

/-! C6: instruction alignment encoding
(ALLOCA line 2993, LOAD line 3004, STORE line 3039) -/

/-- Decoding of the stored alignment field used by the ALLOCA / LOAD / STORE
arms of `ParseFunctionBody`: the expression `(1 << field) >> 1`
(BitcodeReader.cpp:2993, 3004, 3039).  The C expression computes in `int`;
the `Nat` model agrees with it on every field value the writer can store
(LLVM alignments are at most `2^29`, so the field is at most 30). -/
def decodeAlignmentField (field : Nat) : Nat := (1 <<< field) >>> 1

/-- Modelled from the spec: the alignment field stored in ALLOCA/LOAD/STORE
records is `log2(align) + 1` for a non-zero alignment and `0` for "no
alignment" (the writer side is out of scope of this repository). -/
def encodeAlignmentField (a : Nat) : Nat := if a = 0 then 0 else Nat.log2 a + 1

/-! C7: legacy attribute decoding
(`decodeLLVMAttributesForBitcode`, lines 730-744) -/

/-- The `decodeLLVMAttributesForBitcode` (BitcodeReader.cpp:730-744), reduced to
the data it adds to the `AttrBuilder`: the alignment attribute (added only
when the 16-bit field at bits 16..31 is non-zero, and added *as the raw
field value*) and the raw attribute bits
`((E & (0xfffff << 32)) >> 11) | (E & 0xffff)`. -/
def decodeLLVMAttributesForBitcode (EncodedAttrs : Nat) : Option Nat × Nat :=
  let Alignment := (EncodedAttrs &&& (0xffff <<< 16)) >>> 16
  ((if Alignment ≠ 0 then some Alignment else none),
   ((EncodedAttrs &&& (0xfffff <<< 32)) >>> 11) ||| (EncodedAttrs &&& 0xffff))

/-- The claim's reading of the alignment part: the 16-bit field at bits
16..31 interpreted as `log2(alignment) + 1`, i.e. the alignment would be
`(1 << field) >> 1`.  (Stated from the spec's words, for comparison with
the source definition.) -/
def claimedAttributeAlignment (EncodedAttrs : Nat) : Option Nat :=
  let field := EncodedAttrs >>> 16 % 2 ^ 16
  if field ≠ 0 then some (decodeAlignmentField field) else none

/-! C8: `isMaterializable` (lines 3252-3258) -/

/-- The aspects of an IR `GlobalValue` that `isMaterializable` inspects:
whether it is a `Function`, whether that function is only a declaration,
and whether `DeferredFunctionInfo` has an entry for it. -/
inductive GlobalValue where
  | function (isDeclaration : Bool) (inDeferredFunctionInfo : Bool)
  | globalVariable
  | globalAlias
  deriving DecidableEq, Repr

/-- The `BitcodeReader::isMaterializable` (BitcodeReader.cpp:3252-3258):
`dyn_cast<Function>` succeeds only on functions; then
`F->isDeclaration() && DeferredFunctionInfo.count(F)`. -/
def isMaterializable : GlobalValue → Bool
  | .function isDecl inDFI => isDecl && inDFI
  | .globalVariable => false
  | .globalAlias => false

/-! C10: `InitStreamFromBuffer` (lines 3357-3374) -/

/-- Modelled from the spec: `isBitcodeWrapper` (declared in the external
`llvm/Bitcode/ReaderWriter.h`) detects the optional wrapper header by the
magic number `0x0B17C0DE` stored little-endian in the first four bytes. -/
def isBitcodeWrapper (buf : List Nat) : Bool :=
  match buf with
  | b0 :: b1 :: b2 :: b3 :: _ => b0 = 0xDE && b1 = 0xC0 && b2 = 0x17 && b3 = 0x0B
  | _ => false

/-- Modelled from the spec: `SkipBitcodeWrapperHeader` strips the 20-byte
wrapper header, failing when the buffer is too short for it. -/
def skipBitcodeWrapperHeader (buf : List Nat) : Option (List Nat) :=
  if buf.length < 20 then none else some (buf.drop 20)

/-- The `BitcodeReader::InitStreamFromBuffer` (BitcodeReader.cpp:3357-3374):
a buffer whose byte size satisfies `size & 3 != 0` is rejected with
`InvalidBitcodeSignature` before anything else; otherwise the optional
wrapper header is detected and skipped, and the stream is set up over the
remaining bytes. -/
def InitStreamFromBuffer (buffer : List Nat) : Except BitcodeError (List Nat) :=
  if buffer.length &&& 3 ≠ 0 then .error .InvalidBitcodeSignature
  else if isBitcodeWrapper buffer then
    match skipBitcodeWrapperHeader buffer with
    | none => .error .InvalidBitcodeWrapperHeader
    | some rest => .ok rest
  else .ok buffer

/-! C4: atomic instruction records in `ParseFunctionBody`
(LOADATOMIC 3008-3029, STOREATOMIC 3043-3065, CMPXCHG 3066-3085,
ATOMICRMW 3086-3107, FENCE 3108-3119) -/

/-- The `llvm::AtomicOrdering` as used by the reader. -/
inductive AtomicOrdering where
  | notAtomic | unordered | monotonic | acquire | release
  | acquireRelease | sequentiallyConsistent
  deriving DecidableEq, Repr

/-- The `llvm::SynchronizationScope`. -/
inductive SynchronizationScope where
  | singleThread | crossThread
  deriving DecidableEq, Repr

/-- The `GetDecodedOrdering` (BitcodeReader.cpp:457-468).  The numeric codes
`bitc::ORDERING_*` are the stable bitstream identifiers 0..6; unknown codes
fall to the `default:` arm and map to sequentially-consistent. -/
def GetDecodedOrdering (v : Nat) : AtomicOrdering :=
  match v with
  | 0 => .notAtomic
  | 1 => .unordered
  | 2 => .monotonic
  | 3 => .acquire
  | 4 => .release
  | 5 => .acquireRelease
  | _ => .sequentiallyConsistent

/-- The `GetDecodedSynchScope` (BitcodeReader.cpp:470-476).
`bitc::SYNCHSCOPE_SINGLETHREAD = 0`; the default arm together with
`SYNCHSCOPE_CROSSTHREAD = 1` maps everything else to cross-thread. -/
def GetDecodedSynchScope (v : Nat) : SynchronizationScope :=
  match v with
  | 0 => .singleThread
  | _ => .crossThread

/-- The `GetDecodedRMWOperation` (BitcodeReader.cpp:440-455): the codes
`bitc::RMW_XCHG .. bitc::RMW_UMIN` are the stable identifiers 0..10;
anything else decodes to `BAD_BINOP` (outside `FIRST_BINOP..LAST_BINOP`). -/
def rmwOperationValid (v : Nat) : Bool := v ≤ 10

/-- Modelled from the spec: `getValueTypePair(rec, &idx, nextValueNo, &out)`
(defined in this repository's `BitcodeReader.h`, which is not under `src/`):
reads a value-id; if the id is `>= nextValueNo` (an in-function forward
reference) a type-id follows in the next slot and is used to create a
placeholder (failing when the type-id is out of range of the type table);
a backward id resolves against the already-populated value table.  Returns
the updated record index on success. -/
def getValueTypePair (record : List Nat) (slot nextValueNo typeListSize : Nat) :
    Option Nat :=
  match record[slot]? with
  | none => none
  | some valNo =>
    if valNo < nextValueNo then some (slot + 1)
    else
      match record[slot + 1]? with
      | none => none
      | some typeNo =>
        if typeNo < typeListSize then some (slot + 2) else none

/-- Modelled from the spec: `getValue(rec, &idx, expectedType, &out)` reads a
value-id with an externally known (non-null) type; with a known type a
forward reference always succeeds by installing a placeholder, so the read
fails only when the record is exhausted. -/
def getValue (record : List Nat) (slot : Nat) : Option Nat :=
  match record[slot]? with
  | none => none
  | some _ => some (slot + 1)

/-- The decoded payload of a LOADATOMIC record. -/
structure LoadAtomicInst where
  alignField : Nat
  align : Nat
  vol : Nat
  ordering : AtomicOrdering
  synchScope : SynchronizationScope
  deriving DecidableEq, Repr

/-- The `FUNC_CODE_INST_LOADATOMIC` arm (BitcodeReader.cpp:3008-3029):
`[opty, op, align, vol, ordering, synchscope]`. -/
def parseLOADATOMIC (record : List Nat) (nextValueNo typeListSize : Nat) :
    Except BitcodeError LoadAtomicInst :=
  match getValueTypePair record 0 nextValueNo typeListSize with
  | none => .error .InvalidRecord
  | some opNum =>
    if opNum + 4 ≠ record.length then .error .InvalidRecord
    else if GetDecodedOrdering (record.getD (opNum + 2) 0) = .notAtomic ∨
        GetDecodedOrdering (record.getD (opNum + 2) 0) = .release ∨
        GetDecodedOrdering (record.getD (opNum + 2) 0) = .acquireRelease then
      .error .InvalidRecord
    else if GetDecodedOrdering (record.getD (opNum + 2) 0) ≠ .notAtomic ∧
        record.getD opNum 0 = 0 then
      .error .InvalidRecord
    else
      .ok { alignField := record.getD opNum 0,
            align := decodeAlignmentField (record.getD opNum 0),
            vol := record.getD (opNum + 1) 0,
            ordering := GetDecodedOrdering (record.getD (opNum + 2) 0),
            synchScope := GetDecodedSynchScope (record.getD (opNum + 3) 0) }

/-- The decoded payload of a STOREATOMIC record. -/
structure StoreAtomicInst where
  alignField : Nat
  align : Nat
  vol : Nat
  ordering : AtomicOrdering
  synchScope : SynchronizationScope
  deriving DecidableEq, Repr

/-- The `FUNC_CODE_INST_STOREATOMIC` arm (BitcodeReader.cpp:3043-3065):
`[ptrty, ptr, val, align, vol, ordering, synchscope]`. -/
def parseSTOREATOMIC (record : List Nat) (nextValueNo typeListSize : Nat) :
    Except BitcodeError StoreAtomicInst :=
  match getValueTypePair record 0 nextValueNo typeListSize with
  | none => .error .InvalidRecord
  | some opNum1 =>
    match getValue record opNum1 with
    | none => .error .InvalidRecord
    | some opNum =>
      if opNum + 4 ≠ record.length then .error .InvalidRecord
      else if GetDecodedOrdering (record.getD (opNum + 2) 0) = .notAtomic ∨
          GetDecodedOrdering (record.getD (opNum + 2) 0) = .acquire ∨
          GetDecodedOrdering (record.getD (opNum + 2) 0) = .acquireRelease then
        .error .InvalidRecord
      else if GetDecodedOrdering (record.getD (opNum + 2) 0) ≠ .notAtomic ∧
          record.getD opNum 0 = 0 then
        .error .InvalidRecord
      else
        .ok { alignField := record.getD opNum 0,
              align := decodeAlignmentField (record.getD opNum 0),
              vol := record.getD (opNum + 1) 0,
              ordering := GetDecodedOrdering (record.getD (opNum + 2) 0),
              synchScope := GetDecodedSynchScope (record.getD (opNum + 3) 0) }

/-- The decoded payload of a CMPXCHG record. -/
structure CmpXchgInst where
  vol : Nat
  ordering : AtomicOrdering
  synchScope : SynchronizationScope
  deriving DecidableEq, Repr

/-- The `FUNC_CODE_INST_CMPXCHG` arm (BitcodeReader.cpp:3066-3085):
`[ptrty, ptr, cmp, new, vol, ordering, synchscope]` — no alignment field. -/
def parseCMPXCHG (record : List Nat) (nextValueNo typeListSize : Nat) :
    Except BitcodeError CmpXchgInst :=
  match getValueTypePair record 0 nextValueNo typeListSize with
  | none => .error .InvalidRecord
  | some opNum1 =>
    match getValue record opNum1 with
    | none => .error .InvalidRecord
    | some opNum2 =>
      match getValue record opNum2 with
      | none => .error .InvalidRecord
      | some opNum =>
        if opNum + 3 ≠ record.length then .error .InvalidRecord
        else if GetDecodedOrdering (record.getD (opNum + 1) 0) = .notAtomic ∨
            GetDecodedOrdering (record.getD (opNum + 1) 0) = .unordered then
          .error .InvalidRecord
        else
          .ok { vol := record.getD opNum 0,
                ordering := GetDecodedOrdering (record.getD (opNum + 1) 0),
                synchScope := GetDecodedSynchScope (record.getD (opNum + 2) 0) }

/-- The decoded payload of an ATOMICRMW record. -/
structure AtomicRMWInst where
  operation : Nat
  vol : Nat
  ordering : AtomicOrdering
  synchScope : SynchronizationScope
  deriving DecidableEq, Repr

/-- The `FUNC_CODE_INST_ATOMICRMW` arm (BitcodeReader.cpp:3086-3107):
`[ptrty, ptr, val, op, vol, ordering, synchscope]` — no alignment field. -/
def parseATOMICRMW (record : List Nat) (nextValueNo typeListSize : Nat) :
    Except BitcodeError AtomicRMWInst :=
  match getValueTypePair record 0 nextValueNo typeListSize with
  | none => .error .InvalidRecord
  | some opNum1 =>
    match getValue record opNum1 with
    | none => .error .InvalidRecord
    | some opNum =>
      if opNum + 4 ≠ record.length then .error .InvalidRecord
      else if ¬ rmwOperationValid (record.getD opNum 0) then
        .error .InvalidRecord
      else if GetDecodedOrdering (record.getD (opNum + 2) 0) = .notAtomic ∨
          GetDecodedOrdering (record.getD (opNum + 2) 0) = .unordered then
        .error .InvalidRecord
      else
        .ok { operation := record.getD opNum 0,
              vol := record.getD (opNum + 1) 0,
              ordering := GetDecodedOrdering (record.getD (opNum + 2) 0),
              synchScope := GetDecodedSynchScope (record.getD (opNum + 3) 0) }

/-- The decoded payload of a FENCE record. -/
structure FenceInst where
  ordering : AtomicOrdering
  synchScope : SynchronizationScope
  deriving DecidableEq, Repr

/-- The `FUNC_CODE_INST_FENCE` arm (BitcodeReader.cpp:3108-3119):
`[ordering, synchscope]` — no alignment field. -/
def parseFENCE (record : List Nat) : Except BitcodeError FenceInst :=
  if 2 ≠ record.length then .error .InvalidRecord
  else if GetDecodedOrdering (record.getD 0 0) = .notAtomic ∨
      GetDecodedOrdering (record.getD 0 0) = .unordered ∨
      GetDecodedOrdering (record.getD 0 0) = .monotonic then
    .error .InvalidRecord
  else
    .ok { ordering := GetDecodedOrdering (record.getD 0 0),
          synchScope := GetDecodedSynchScope (record.getD 1 0) }

/-! C2: dispatch of unknown record codes
(`ParseConstants` default arm 1592-1595, `ParseModule` default arm 2044,
`ParseFunctionBody` default arm 2486-2487) -/

/-- The in-memory IR type language built by the reader (`llvm::Type`
restricted to the kinds the reader constructs). -/
inductive Ty where
  | voidT | halfT | floatT | doubleT | x86fp80 | fp128T | ppcfp128
  | labelT | metadataT | x86mmx
  | intT (width : Nat)
  | ptrT (pointee : Ty) (addrspace : Nat)
  | fnT (vararg : Bool) (ret : Ty) (params : List Ty)
  | structT (packed : Bool) (fields : List Ty)
  | opaqueT
  | arrayT (n : Nat) (elt : Ty)
  | vectorT (n : Nat) (elt : Ty)

/-- The `Type::isIntegerTy`. -/
def Ty.isIntegerTy : Ty → Bool
  | .intT _ => true
  | _ => false

/-- The `Type::isPointerTy`. -/
def Ty.isPointerTy : Ty → Bool
  | .ptrT _ _ => true
  | _ => false

/-- The `Type::isVectorTy` (`dyn_cast<VectorType>` success). -/
def Ty.isVectorTy : Ty → Bool
  | .vectorT _ _ => true
  | _ => false

/-- Whether a pointer type's element type is a function type
(`dyn_cast<FunctionType>(cast<PointerType>(Ty)->getElementType())`). -/
def Ty.pointsToFunction : Ty → Bool
  | .ptrT (.fnT _ _ _) _ => true
  | _ => false

/-- A value-table slot as far as the constants / module parsers observe it:
either a forward-reference placeholder (`ConstantPlaceHolder` / synthetic
`Argument`) or a concrete value, of which we track whether it is a
`Function` (needed by the `dyn_cast<Function>` in BLOCKADDRESS). -/
inductive CVal where
  | placeholder
  | concrete (isFunction : Bool)
  deriving DecidableEq, Repr

/-- Grow a value table to hold index `n - 1` (`resize(n)` on the
`std::vector<WeakVH>`, which fills new slots with null). -/
def resizeValues (vs : List (Option CVal)) (n : Nat) : List (Option CVal) :=
  if n ≤ vs.length then vs else vs ++ List.replicate (n - vs.length) none

/-- The `BitcodeReaderValueList::getConstantFwdRef` (BitcodeReader.cpp:544-558):
returns the slot when occupied, otherwise installs a placeholder
(growing the table when the index is past the end). -/
def getConstantFwdRef (vs : List (Option CVal)) (idx : Nat) :
    List (Option CVal) :=
  let vs' := resizeValues vs (idx + 1)
  if vs'.getD idx none = none then vs'.set idx (some .placeholder) else vs'

/-- The `BitcodeReaderValueList::AssignValue` (BitcodeReader.cpp:515-541): the
slot (grown to if necessary) ends up holding the new value in every case
(push, overwrite of a constant placeholder, or use-rewrite of an argument
placeholder). -/
def assignValue (vs : List (Option CVal)) (idx : Nat) (v : CVal) :
    List (Option CVal) :=
  (resizeValues vs (idx + 1)).set idx (some v)

/-- The state of `ParseConstants` observed by this development: the
"current type" register, the value table, and the next constant slot. -/
structure ConstantsState where
  curTy : Ty
  values : List (Option CVal)
  nextCstNo : Nat

/-- The common tail of every value-producing arm of `ParseConstants`
(BitcodeReader.cpp:1885-1886): `ValueList.AssignValue(V, NextCstNo); ++NextCstNo`. -/
def ConstantsState.assign (s : ConstantsState) (isFunction : Bool := false) :
    ConstantsState :=
  { s with values := assignValue s.values s.nextCstNo (.concrete isFunction),
           nextCstNo := s.nextCstNo + 1 }

/-- Register forward references to the given value ids
(each a `getConstantFwdRef` call). -/
def ConstantsState.fwdRefs (s : ConstantsState) (ids : List Nat) :
    ConstantsState :=
  { s with values := ids.foldl (fun vs i => getConstantFwdRef vs i) s.values }

/-- The record codes recognized by the `ParseConstants` switch
(BitcodeReader.cpp:1591-1883); `unknown` stands for every other code and is
handled by the `default:` arm, which falls through into `CST_CODE_UNDEF`. -/
inductive CstCode where
  | undef | settype | nullc | integer | wideInteger | floatc | aggregate
  | stringc | cstring | ceBinop | ceCast | ceGep | ceInboundsGep | ceSelect
  | ceExtractElt | ceInsertElt | ceShuffleVec | ceShufVecEx | ceCmp
  | inlineAsm | blockAddress
  | unknown (code : Nat)
  deriving DecidableEq, Repr

/-- Whether `GetDecodedBinaryOpcode` (BitcodeReader.cpp:416-438) succeeds:
the stable binop codes are 0..12 (`BINOP_ADD .. BINOP_XOR`); the type
argument only selects the FP variant and never affects validity. -/
def binopCodeValid (v : Nat) : Bool := v ≤ 12

/-- Whether `GetDecodedCastOpcode` (BitcodeReader.cpp:399-415) succeeds:
the stable cast codes are 0..11 (`CAST_TRUNC .. CAST_BITCAST`). -/
def castCodeValid (v : Nat) : Bool := v ≤ 11

/-- Whether every even-position entry of a GEP record is a valid type id
(each is passed through `getTypeByID`, BitcodeReader.cpp:1758-1761). -/
def gepTypesValid (record : List Nat) (numTypes : Nat) : Bool :=
  (List.range record.length).all fun i =>
    i % 2 ≠ 0 || decide (record.getD i 0 < numTypes)

/-- The `CST_CODE_SETTYPE` arm (BitcodeReader.cpp:1596-1602). -/
def cstSETTYPE (tl : List Ty) (record : List Nat) (s : ConstantsState) :
    Except BitcodeError ConstantsState :=
  if record.length = 0 then .error .InvalidRecord
  else if record.getD 0 0 ≥ tl.length then .error .InvalidRecord
  else .ok { s with curTy := tl.getD (record.getD 0 0) .voidT }

/-- The `CST_CODE_INTEGER` / `CST_CODE_WIDE_INTEGER` arms
(BitcodeReader.cpp:1606-1620): `CurTy` must be an integer type and the
record non-empty. -/
def cstINTEGER (record : List Nat) (s : ConstantsState) :
    Except BitcodeError ConstantsState :=
  if ¬ s.curTy.isIntegerTy ∨ record.length = 0 then .error .InvalidRecord
  else .ok s.assign

/-- The `CST_CODE_FLOAT` arm (BitcodeReader.cpp:1621-1649): every `CurTy` is
accepted (non-FP types yield undef). -/
def cstFLOAT (record : List Nat) (s : ConstantsState) :
    Except BitcodeError ConstantsState :=
  if record.length = 0 then .error .InvalidRecord
  else .ok s.assign

/-- The `CST_CODE_AGGREGATE` arm (BitcodeReader.cpp:1651-1677): for a
struct/array/vector `CurTy` every record entry becomes a
`getConstantFwdRef`; otherwise `V = UndefValue::get(CurTy)`. -/
def cstAGGREGATE (record : List Nat) (s : ConstantsState) :
    Except BitcodeError ConstantsState :=
  if record.length = 0 then .error .InvalidRecord
  else
    match s.curTy with
    | .structT _ _ => .ok ((s.fwdRefs record).assign)
    | .arrayT _ _ => .ok ((s.fwdRefs record).assign)
    | .vectorT _ _ => .ok ((s.fwdRefs record).assign)
    | _ => .ok s.assign                 -- V = UndefValue::get(CurTy)

/-- The `CST_CODE_STRING` / `CST_CODE_CSTRING` arms
(BitcodeReader.cpp:1678-1706): element-wise integer constants; the
`cast<ArrayType>(CurTy)` is unchecked. -/
def cstSTRING (record : List Nat) (s : ConstantsState) :
    Except BitcodeError ConstantsState :=
  if record.length = 0 then .error .InvalidRecord
  else .ok s.assign

/-- The `CST_CODE_CE_BINOP` arm (BitcodeReader.cpp:1707-1737). -/
def cstCE_BINOP (record : List Nat) (s : ConstantsState) :
    Except BitcodeError ConstantsState :=
  if record.length < 3 then .error .InvalidRecord
  else if ¬ binopCodeValid (record.getD 0 0) then .ok s.assign -- unknown binop: undef
  else .ok ((s.fwdRefs [record.getD 1 0, record.getD 2 0]).assign)

/-- The `CST_CODE_CE_CAST` arm (BitcodeReader.cpp:1738-1752). -/
def cstCE_CAST (tl : List Ty) (record : List Nat) (s : ConstantsState) :
    Except BitcodeError ConstantsState :=
  if record.length < 3 then .error .InvalidRecord
  else if ¬ castCodeValid (record.getD 0 0) then .ok s.assign -- unknown cast: undef
  else if record.getD 1 0 ≥ tl.length then .error .InvalidRecord
  else .ok ((s.fwdRefs [record.getD 2 0]).assign)

/-- The `CST_CODE_CE_GEP` / `CST_CODE_CE_INBOUNDS_GEP` shared arm
(BitcodeReader.cpp:1753-1769); the two codes differ only in the inbounds
flag passed to the builder. -/
def cstCE_GEP (tl : List Ty) (record : List Nat) (s : ConstantsState) :
    Except BitcodeError ConstantsState :=
  if record.length % 2 = 1 then .error .InvalidRecord
  else if ¬ gepTypesValid record tl.length then .error .InvalidRecord
  else .ok ((s.fwdRefs ((List.range (record.length / 2)).map
      (fun i => record.getD (2 * i + 1) 0))).assign)

/-- The `CST_CODE_CE_SELECT` arm (BitcodeReader.cpp:1770-1777). -/
def cstCE_SELECT (record : List Nat) (s : ConstantsState) :
    Except BitcodeError ConstantsState :=
  if record.length < 3 then .error .InvalidRecord
  else .ok ((s.fwdRefs [record.getD 0 0, record.getD 1 0,
      record.getD 2 0]).assign)

/-- The `CST_CODE_CE_EXTRACTELT` arm (BitcodeReader.cpp:1778-1789). -/
def cstCE_EXTRACTELT (tl : List Ty) (record : List Nat) (s : ConstantsState) :
    Except BitcodeError ConstantsState :=
  if record.length < 3 then .error .InvalidRecord
  else if record.getD 0 0 ≥ tl.length then .error .InvalidRecord
  else if ¬ (tl.getD (record.getD 0 0) .voidT).isVectorTy then
    .error .InvalidRecord
  else .ok ((s.fwdRefs [record.getD 1 0, record.getD 2 0]).assign)

/-- The `CST_CODE_CE_INSERTELT` / `CST_CODE_CE_SHUFFLEVEC` arms
(BitcodeReader.cpp:1790-1812): `CurTy` must be a vector. -/
def cstCE_INSERTELT (record : List Nat) (s : ConstantsState) :
    Except BitcodeError ConstantsState :=
  if record.length < 3 ∨ ¬ s.curTy.isVectorTy then .error .InvalidRecord
  else .ok ((s.fwdRefs [record.getD 0 0, record.getD 1 0,
      record.getD 2 0]).assign)

/-- The `CST_CODE_CE_SHUFVEC_EX` arm (BitcodeReader.cpp:1813-1826). -/
def cstCE_SHUFVEC_EX (tl : List Ty) (record : List Nat) (s : ConstantsState) :
    Except BitcodeError ConstantsState :=
  if record.length < 4 ∨ ¬ s.curTy.isVectorTy ∨
      record.getD 0 0 ≥ tl.length ∨
      ¬ (tl.getD (record.getD 0 0) .voidT).isVectorTy then
    .error .InvalidRecord
  else .ok ((s.fwdRefs [record.getD 1 0, record.getD 2 0,
      record.getD 3 0]).assign)

/-- The `CST_CODE_CE_CMP` arm (BitcodeReader.cpp:1827-1841). -/
def cstCE_CMP (tl : List Ty) (record : List Nat) (s : ConstantsState) :
    Except BitcodeError ConstantsState :=
  if record.length < 4 then .error .InvalidRecord
  else if record.getD 0 0 ≥ tl.length then .error .InvalidRecord
  else .ok ((s.fwdRefs [record.getD 1 0, record.getD 2 0]).assign)

/-- The `CST_CODE_INLINEASM` arm (BitcodeReader.cpp:1842-1863): the asm string
and constraint string sizes must fit in the record; the
`cast<PointerType>(CurTy)` is unchecked. -/
def cstINLINEASM (record : List Nat) (s : ConstantsState) :
    Except BitcodeError ConstantsState :=
  if record.length < 2 then .error .InvalidRecord
  else if 2 + record.getD 1 0 ≥ record.length then .error .InvalidRecord
  else if 3 + record.getD 1 0 + record.getD (2 + record.getD 1 0) 0 >
      record.length then .error .InvalidRecord
  else .ok s.assign

/-- The `CST_CODE_BLOCKADDRESS` arm (BitcodeReader.cpp:1864-1882): looks up the
function type, takes a `getConstantFwdRef` to the function, and requires
the slot to actually hold a `Function`; the stand-in global it registers in
`BlockAddrFwdRefs` is the assigned value. -/
def cstBLOCKADDRESS (tl : List Ty) (record : List Nat) (s : ConstantsState) :
    Except BitcodeError ConstantsState :=
  if record.length < 3 then .error .InvalidRecord
  else if record.getD 0 0 ≥ tl.length then .error .InvalidRecord
  else if (getConstantFwdRef s.values (record.getD 1 0)).getD
      (record.getD 1 0) none = some (.concrete true) then
    .ok (({ s with
        values := getConstantFwdRef s.values (record.getD 1 0) }).assign)
  else .error .InvalidRecord            -- dyn_cast<Function> failed

/-- One record of a CONSTANTS block: the big switch in `ParseConstants`
(BitcodeReader.cpp:1591-1886), as it acts on the `CurTy` register, the
value table, and `NextCstNo`, dispatching to the per-code arms above.  The
type table is taken fully resolved (constants are parsed after the type
table).  The `default:` arm falls through into `CST_CODE_UNDEF`. -/
def constantsRecordStep (tl : List Ty) (code : CstCode) (record : List Nat)
    (s : ConstantsState) : Except BitcodeError ConstantsState :=
  match code with
  | .unknown _ => .ok s.assign          -- default: unknown constant → UNDEF
  | .undef => .ok s.assign
  | .settype => cstSETTYPE tl record s
  | .nullc => .ok s.assign
  | .integer => cstINTEGER record s
  | .wideInteger => cstINTEGER record s
  | .floatc => cstFLOAT record s
  | .aggregate => cstAGGREGATE record s
  | .stringc => cstSTRING record s
  | .cstring => cstSTRING record s
  | .ceBinop => cstCE_BINOP record s
  | .ceCast => cstCE_CAST tl record s
  | .ceGep => cstCE_GEP tl record s
  | .ceInboundsGep => cstCE_GEP tl record s
  | .ceSelect => cstCE_SELECT record s
  | .ceExtractElt => cstCE_EXTRACTELT tl record s
  | .ceInsertElt => cstCE_INSERTELT record s
  | .ceShuffleVec => cstCE_INSERTELT record s
  | .ceShufVecEx => cstCE_SHUFVEC_EX tl record s
  | .ceCmp => cstCE_CMP tl record s
  | .inlineAsm => cstINLINEASM record s
  | .blockAddress => cstBLOCKADDRESS tl record s

/-- The aspects of the module-level parser state touched by the record
arms of `ParseModule` (BitcodeReader.cpp:2043-2225). -/
structure ModuleState where
  typeList : List Ty
  values : List (Option CVal)
  sectionTableLen : Nat
  gcTableLen : Nat
  triple : List Nat
  datalayout : List Nat
  moduleAsm : List Nat
  globalInits : Nat
  aliasInits : Nat
  functionsWithBodies : Nat

/-- The record codes recognized by the top-level record switch of
`ParseModule` (BitcodeReader.cpp:2043-2225); every other code hits
`default: break;  // Default behavior, ignore unknown content.` -/
inductive ModCode where
  | version | triple | datalayout | asmCode | deplib | sectionname | gcname
  | globalvar | function | alias | purgevals
  | unknown (code : Nat)
  deriving DecidableEq, Repr

/-- One top-level record of the MODULE block: the record switch of
`ParseModule` (BitcodeReader.cpp:2043-2225). -/
def moduleRecordStep (code : ModCode) (record : List Nat) (s : ModuleState) :
    Except BitcodeError ModuleState :=
  match code with
  | .unknown _ => .ok s                 -- default: ignore unknown content
  | .version =>
    if record.length < 1 then .error .InvalidRecord
    else if record.getD 0 0 ≠ 0 then .error .InvalidValue
    else .ok s
  | .triple => .ok { s with triple := record }
  | .datalayout => .ok { s with datalayout := record }
  | .asmCode => .ok { s with moduleAsm := record }
  | .deplib => .ok s                    -- ignored by policy (FIXME: remove in 4.0)
  | .sectionname => .ok { s with sectionTableLen := s.sectionTableLen + 1 }
  | .gcname => .ok { s with gcTableLen := s.gcTableLen + 1 }
  | .globalvar =>
    if record.length < 6 then .error .InvalidRecord
    else if record.getD 0 0 ≥ s.typeList.length then .error .InvalidRecord
    else if ¬ (s.typeList.getD (record.getD 0 0) .voidT).isPointerTy then
      .error .InvalidTypeForValue
    else if record.getD 5 0 ≠ 0 ∧
        record.getD 5 0 - 1 ≥ s.sectionTableLen then .error .InvalidID
    else .ok { s with
        values := s.values ++ [some (.concrete false)],
        globalInits :=
          s.globalInits + (if record.getD 2 0 ≠ 0 then 1 else 0) }
  | .function =>
    if record.length < 8 then .error .InvalidRecord
    else if record.getD 0 0 ≥ s.typeList.length then .error .InvalidRecord
    else if ¬ (s.typeList.getD (record.getD 0 0) .voidT).isPointerTy then
      .error .InvalidTypeForValue
    else if ¬ (s.typeList.getD (record.getD 0 0) .voidT).pointsToFunction then
      .error .InvalidTypeForValue
    else if record.getD 6 0 ≠ 0 ∧
        record.getD 6 0 - 1 ≥ s.sectionTableLen then .error .InvalidID
    else if record.length > 8 ∧ record.getD 8 0 ≠ 0 ∧
        record.getD 8 0 - 1 > s.gcTableLen then .error .InvalidID
    else .ok { s with
        values := s.values ++ [some (.concrete true)],
        functionsWithBodies :=
          s.functionsWithBodies + (if record.getD 2 0 = 0 then 1 else 0) }
  | .alias =>
    if record.length < 3 then .error .InvalidRecord
    else if record.getD 0 0 ≥ s.typeList.length then .error .InvalidRecord
    else if ¬ (s.typeList.getD (record.getD 0 0) .voidT).isPointerTy then
      .error .InvalidTypeForValue
    else .ok { s with
        values := s.values ++ [some (.concrete false)],
        aliasInits := s.aliasInits + 1 }
  | .purgevals =>
    if record.length < 1 ∨ record.getD 0 0 > s.values.length then
      .error .InvalidRecord
    else .ok { s with values := s.values.take (record.getD 0 0) }

/-! The function-body parser `ParseFunctionBody` (lines 2421-3245), shared by C2, C5 and C9 -/

/-- The `BitcodeReaderValueList::getValueFwdRef` with a known type
(BitcodeReader.cpp:560-576): returns the slot when occupied, otherwise
installs a synthetic-argument placeholder (growing the table when the
index is past the end).  Structurally the same table effect as
`getConstantFwdRef`. -/
def getValueFwdRef (vs : List (Option CVal)) (idx : Nat) :
    List (Option CVal) :=
  getConstantFwdRef vs idx

/-- Run the records of a CONSTANTS block (`ParseConstants`,
BitcodeReader.cpp:1558-1899) from a given state, threading the mutated
state through an error exactly as the C++ member state is: the pair holds
the reader state as left behind and the error, if any.  The end-of-block
check `NextCstNo != ValueList.size()` yields `InvalidConstantReference`;
`ResolveConstantForwardRefs` rewrites placeholder *uses* and leaves the
table itself unchanged. -/
def runConstants (tl : List Ty) (records : List (CstCode × List Nat))
    (s : ConstantsState) : ConstantsState × Option BitcodeError :=
  match records with
  | [] =>
    if s.nextCstNo ≠ s.values.length then (s, some .InvalidConstantReference)
    else (s, none)
  | (c, r) :: rest =>
    match constantsRecordStep tl c r s with
    | .error e => (s, some e)
    | .ok s' => runConstants tl rest s'

/-- One instruction of the function under construction, abstracted to the
two attributes the block bookkeeping inspects: `isa<TerminatorInst>` and
`getType()->isVoidTy()`. -/
structure Instr where
  isTerm : Bool
  isVoid : Bool
  deriving DecidableEq, Repr

/-- The state of `ParseFunctionBody` (locals of BitcodeReader.cpp:2421-2440
plus the member tables it mutates): the value table, the metadata table
length, `NextValueNo`, the function-local basic-block list (`FunctionBBs`,
each block the list of instructions appended to it), `CurBBNo`, and the
current block (`CurBB`, modelled as an index into `FunctionBBs`, `none`
for the null pointer). -/
structure FuncState where
  values : List (Option CVal)
  mdLen : Nat
  nextValueNo : Nat
  functionBBs : List (List Instr)
  curBBNo : Nat
  curBB : Option Nat
  deriving DecidableEq, Repr

/-- Whether a "last instruction emitted" exists, as computed by the
DEBUG_LOC / DEBUG_LOC_AGAIN arms (BitcodeReader.cpp:2503-2510, 2517-2522):
the current block if non-empty, else the last terminated block. -/
def FuncState.hasLastInstruction (s : FuncState) : Bool :=
  (match s.curBB with
   | some b => s.functionBBs.getD b [] ≠ []
   | none => false) ||
  (s.curBBNo ≠ 0 && s.functionBBs.getD (s.curBBNo - 1) [] ≠ [])

/-- One record (or subblock) of a FUNCTION block, classified by the arm of
the `ParseFunctionBody` switch that handles it.  The roughly thirty
`FUNC_CODE_INST_*` arms are abstracted into `inst` (an instruction record
whose operands decode successfully, with the forward references it
registers) and `instErr` (an instruction record that fails its own operand
or size checks and returns `InvalidRecord` before producing an
instruction); `unknownCode` is every code the switch does not list, handled
by `default: return Error(BitcodeError::InvalidValue)` (line 2486-2487).
The `inst` abstraction covers exactly the instruction arms that leave every
access to `CurBB` to the common tail (3185-3201); the one arm that does
not — the legacy `FUNC_CODE_INST_UNWIND_2_7` upgrade arm (2900-2917),
which pushes a `landingpad` onto `CurBB` inside the arm at line 2913 —
is modelled separately by `FuncRecFull.unwind27` / `funcRecordStepFull`. -/
inductive FuncRec where
  | declareBlocks (record : List Nat)
  | debugLoc (record : List Nat)
  | debugLocAgain
  | inst (i : Instr) (fwdRefIds : List Nat)
  | instErr
  | unknownCode (code : Nat)
  | subConstants (records : List (CstCode × List Nat))
  | subMetadata (numNewMDValues : Nat)
  | subOther
  deriving DecidableEq, Repr

/-- One iteration of the `ParseFunctionBody` read loop
(BitcodeReader.cpp:2441-3202): the subblock dispatch, the record switch,
and the common instruction tail (3185-3201).  Returns the reader state as
left behind together with the error, if any. -/
def funcRecordStep (tl : List Ty) (rec : FuncRec) (s : FuncState) :
    FuncState × Option BitcodeError :=
  match rec with
  | .declareBlocks record =>
    if record.length < 1 ∨ record.getD 0 0 = 0 then (s, some .InvalidRecord)
    else
      ({ s with functionBBs := List.replicate (record.getD 0 0) [],
                curBB := some 0 }, none)
  | .debugLoc record =>
    if ¬ s.hasLastInstruction ∨ record.length < 4 then
      (s, some .InvalidRecord)
    else
      -- MDValueList.getValueFwdRef(ScopeID-1) / (IAID-1) can grow the table
      ({ s with mdLen := max s.mdLen (max (record.getD 2 0) (record.getD 3 0)) },
       none)
  | .debugLocAgain =>
    if ¬ s.hasLastInstruction then (s, some .InvalidRecord) else (s, none)
  | .inst i fwdRefIds =>
    -- operand reads first (they install forward-reference placeholders) ...
    let vs := fwdRefIds.foldl (fun vs j => getValueFwdRef vs j) s.values
    -- ... then the common tail: append to CurBB or reject (3185-3197)
    match s.curBB with
    | none => ({ s with values := vs }, some .InvalidInstructionWithNoBB)
    | some b =>
      let bbs := s.functionBBs.set b (s.functionBBs.getD b [] ++ [i])
      let no' := if i.isTerm then s.curBBNo + 1 else s.curBBNo
      let cur' := if i.isTerm then
          (if no' < bbs.length then some no' else none) else s.curBB
      if i.isVoid then
        ({ s with values := vs, functionBBs := bbs, curBBNo := no',
                  curBB := cur' }, none)
      else
        ({ s with values := assignValue vs s.nextValueNo (.concrete false),
                  nextValueNo := s.nextValueNo + 1,
                  functionBBs := bbs, curBBNo := no', curBB := cur' }, none)
  | .instErr => (s, some .InvalidRecord)
  | .unknownCode _ => (s, some .InvalidValue)
  | .subConstants records =>
    match runConstants tl records
        { curTy := .intT 32, values := s.values,
          nextCstNo := s.values.length } with
    | (cs, some e) => ({ s with values := cs.values }, some e)
    | (cs, none) =>
      ({ s with values := cs.values, nextValueNo := cs.values.length }, none)
  | .subMetadata k => ({ s with mdLen := s.mdLen + k }, none)
  | .subOther => (s, none)

/-- The read loop of `ParseFunctionBody`: process items until the first
error or the end of the block. -/
def runFunctionRecords (tl : List Ty) (items : List FuncRec) (s : FuncState) :
    FuncState × Option BitcodeError :=
  match items with
  | [] => (s, none)
  | rec :: rest =>
    match funcRecordStep tl rec s with
    | (s', some e) => (s', some e)
    | (s', none) => runFunctionRecords tl rest s'

/-- The `BitcodeReader::ParseFunctionBody` (BitcodeReader.cpp:2421-3245) over a
list of already-cursor-decoded records: push the formal arguments, run the
records, and on success perform the epilogue — the unresolved-value check
on `ValueList.back()` (3204-3216), then truncation of the value and
metadata tables to their baselines and release of `FunctionBBs`
(3240-3243).  The returned pair is the reader state as left behind
(mutations are *not* rolled back on error) and the error, if any. -/
def ParseFunctionBody (tl : List Ty) (numArgs : Nat) (items : List FuncRec)
    (values0 : List (Option CVal)) (mdLen0 : Nat) :
    FuncState × Option BitcodeError :=
  let entry : FuncState :=
    { values := values0 ++ List.replicate numArgs (some (.concrete false)),
      mdLen := mdLen0,
      nextValueNo := values0.length + numArgs,
      functionBBs := [], curBBNo := 0, curBB := none }
  match runFunctionRecords tl items entry with
  | (s, some e) => (s, some e)
  | (s, none) =>
    if s.values.getLastD (some (.concrete false)) = some .placeholder then
      (s, some .NeverResolvedValueFoundInFunction)
    else
      ({ s with values := s.values.take values0.length, mdLen := mdLen0,
                functionBBs := [] }, none)

/-- Outcome of one read-loop iteration once the legacy
`FUNC_CODE_INST_UNWIND_2_7` arm is included: a defined continuation state, a
defined error return, or the undefined behaviour of dereferencing the null
`CurBB` at BitcodeReader.cpp:2913 — after which there is no reader state and
no `BitcodeError` at all. -/
inductive FuncStepOutcome where
  | next (s : FuncState)
  | errorOut (s : FuncState) (e : BitcodeError)
  | nullDeref
  deriving DecidableEq, Repr

/-- One record of a FUNCTION block with the legacy
`FUNC_CODE_INST_UNWIND_2_7` arm (BitcodeReader.cpp:2900-2917) kept apart
from `inst`: alone among the instruction arms it mutates `CurBB` *inside*
the arm (line 2913) instead of leaving every block access to the common
tail, so the `inst` abstraction does not cover it. -/
inductive FuncRecFull where
  | basic (r : FuncRec)
  | unwind27
  deriving DecidableEq, Repr

/-- One iteration of the `ParseFunctionBody` read loop including the
`FUNC_CODE_INST_UNWIND_2_7` arm (BitcodeReader.cpp:2900-2917).  That arm
replaces the removed `unwind` instruction: it builds a `landingpad` `LP` —
a non-terminator of the non-void type `{i8*, i32}` — and executes
`CurBB->getInstList().push_back(LP)` (line 2913) with no null check, so
with `CurBB == null` it dereferences a null pointer: undefined behaviour,
modelled as `nullDeref`, not any `BitcodeError`.  With a current block the
record emits *two* instructions: `LP` is appended inside the arm, then
`I = ResumeInst::Create(LP)` — a void terminator — flows through the
common tail (3185-3201), which appends it to the same block, bumps
`CurBBNo` and advances `CurBB` (or nulls it past the last block); `LP`
bypasses the tail, so despite being non-void it is never `AssignValue`d and
`NextValueNo` does not move. -/
def funcRecordStepFull (tl : List Ty) (rec : FuncRecFull) (s : FuncState) :
    FuncStepOutcome :=
  match rec with
  | .basic r =>
    match funcRecordStep tl r s with
    | (s', none) => .next s'
    | (s', some e) => .errorOut s' e
  | .unwind27 =>
    match s.curBB with
    | none => .nullDeref
    | some b =>
      -- CurBB->getInstList().push_back(LP) inside the arm (line 2913) ...
      let bbs₁ := s.functionBBs.set b
          (s.functionBBs.getD b [] ++ [⟨false, false⟩])
      -- ... then the resume through the common tail (3185-3197)
      let bbs₂ := bbs₁.set b (bbs₁.getD b [] ++ [⟨true, true⟩])
      .next { s with functionBBs := bbs₂, curBBNo := s.curBBNo + 1,
                     curBB := if s.curBBNo + 1 < bbs₂.length then
                       some (s.curBBNo + 1) else none }

/-! C3: `ParseOldTypeTable` (lines 1033-1236) -/

/-- What a slot of the legacy type table holds, as far as the multi-pass
algorithm inspects it: empty (null `Type*`), an opaque named-struct
placeholder installed by a not-yet-completed STRUCT_OLD record (the only
values the `isOpaque()` test at line 1140-1141 sees as opaque at their own
slot), or a finished type counted by `NumTypesRead`. -/
inductive OldSlot where
  | ph
  | fin
  deriving DecidableEq, Repr

/-- The `std::vector::resize` on the legacy type table: shrinking drops the
tail, growing pads with null slots. -/
def resizeTL (tl : List (Option OldSlot)) (n : Nat) : List (Option OldSlot) :=
  if n ≤ tl.length then tl.take n
  else tl ++ List.replicate (n - tl.length) none

/-- The `BitcodeReader::getTypeByIDOrNull` (BitcodeReader.cpp:714-719): grows
the table when the id is past the end and returns the slot (here: whether
it is non-null). -/
def getTypeByIDOrNull (tl : List (Option OldSlot)) (id : Nat) :
    List (Option OldSlot) × Bool :=
  let tl' := if id ≥ tl.length then resizeTL tl (id + 1) else tl
  (tl', (tl'.getD id none).isSome)

/-- The element-gathering loops of the STRUCT_OLD / FUNCTION / FUNCTION_OLD
arms (e.g. BitcodeReader.cpp:1148-1154): look elements up in order, stopping
at the first unresolved one (later ids are then *not* looked up, so their
resizes do not happen). -/
def gatherElts (tl : List (Option OldSlot)) (ids : List Nat) :
    List (Option OldSlot) × Bool :=
  match ids with
  | [] => (tl, true)
  | id :: rest =>
    match getTypeByIDOrNull tl id with
    | (tl', true) => gatherElts tl' rest
    | (tl', false) => (tl', false)

/-- The per-pass state of `ParseOldTypeTable`
(BitcodeReader.cpp:1046-1051). -/
structure OldPassState where
  tl : List (Option OldSlot)
  nextTypeID : Nat
  numRead : Nat
  readAny : Bool
  deriving DecidableEq, Repr

/-- One record of the legacy type block, classified by the arm of the
`ParseOldTypeTable` switch that handles it (BitcodeReader.cpp:1092-1222).
`simple` covers the payload-free always-resolving codes VOID / FLOAT /
DOUBLE / X86_FP80 / FP128 / PPC_FP128 / LABEL / METADATA / X86_MMX;
`unknownCode` is everything the switch does not list (there is no
TYPE_CODE_HALF in this path), handled by
`default: return Error(BitcodeError::InvalidTYPETable)`. -/
inductive OldTypeRec where
  | numentry (record : List Nat)
  | simple
  | integer (record : List Nat)
  | opaqueOld
  | structOld (record : List Nat)
  | pointer (record : List Nat)
  | funcOld (record : List Nat)
  | funcNew (record : List Nat)
  | array (record : List Nat)
  | vector (record : List Nat)
  | unknownCode
  | subblock
  | defineAbbrev
  deriving DecidableEq, Repr

/-- The common tail of the record loop (BitcodeReader.cpp:1224-1234):
bounds-check `NextTypeID`, install a newly resolved type into a still-null
slot — counting it and setting `ReadAnyTypes` — and advance
`NextTypeID`. -/
def oldTypeCommonTail (s : OldPassState) (tl' : List (Option OldSlot))
    (result : Bool) : Except BitcodeError OldPassState :=
  if s.nextTypeID ≥ tl'.length then .error .InvalidTYPETable
  else if result ∧ tl'.getD s.nextTypeID none = none then
    .ok { tl := tl'.set s.nextTypeID (some .fin),
          nextTypeID := s.nextTypeID + 1,
          numRead := s.numRead + 1, readAny := true }
  else .ok { tl := tl', nextTypeID := s.nextTypeID + 1,
             numRead := s.numRead, readAny := s.readAny }

/-- One iteration of the `ParseOldTypeTable` record loop
(BitcodeReader.cpp:1054-1235): subblocks and abbreviation definitions are
skipped, NUMENTRY resizes the table and continues, every other recognized
code computes a (possibly null) `ResultTy` — mutating the table along the
way — and runs the common tail. -/
def oldTypeRecordStep (rec : OldTypeRec) (s : OldPassState) :
    Except BitcodeError OldPassState :=
  match rec with
  | .subblock => .ok s
  | .defineAbbrev => .ok s
  | .unknownCode => .error .InvalidTYPETable
  | .numentry record =>
    if record.length < 1 then .error .InvalidTYPETable
    else .ok { s with tl := resizeTL s.tl (record.getD 0 0) }
  | .simple => oldTypeCommonTail s s.tl true
  | .integer record =>
    if record.length < 1 then .error .InvalidTYPETable
    else oldTypeCommonTail s s.tl true
  | .opaqueOld =>
    if s.nextTypeID < s.tl.length ∧ s.tl.getD s.nextTypeID none = none then
      oldTypeCommonTail s s.tl true
    else oldTypeCommonTail s s.tl false
  | .structOld record =>
    if s.nextTypeID ≥ s.tl.length then oldTypeCommonTail s s.tl false
    else if s.tl.getD s.nextTypeID none = some .fin then
      -- already read and no longer opaque: don't reprocess
      oldTypeCommonTail s s.tl false
    else
      -- install the opaque placeholder if the slot is still empty
      let tl₁ := if s.tl.getD s.nextTypeID none = none then
          s.tl.set s.nextTypeID (some .ph) else s.tl
      match gatherElts tl₁ (record.drop 1) with
      | (tl₂, false) => oldTypeCommonTail s tl₂ false -- not all elements ready
      | (tl₂, true) =>
        -- setBody; ResultTy = TypeList[NextTypeID]; TypeList[NextTypeID] = 0
        oldTypeCommonTail s (tl₂.set s.nextTypeID none) true
  | .pointer record =>
    if record.length < 1 then .error .InvalidTYPETable
    else
      match getTypeByIDOrNull s.tl (record.getD 0 0) with
      | (tl₁, ok) => oldTypeCommonTail s tl₁ ok
  | .funcOld record =>
    if record.length < 3 then .error .InvalidTYPETable
    else
      match gatherElts s.tl (record.drop 3) with
      | (tl₁, false) => oldTypeCommonTail s tl₁ false
      | (tl₁, true) =>
        match getTypeByIDOrNull tl₁ (record.getD 2 0) with
        | (tl₂, ok) => oldTypeCommonTail s tl₂ ok
  | .funcNew record =>
    if record.length < 2 then .error .InvalidTYPETable
    else
      match gatherElts s.tl (record.drop 2) with
      | (tl₁, false) => oldTypeCommonTail s tl₁ false
      | (tl₁, true) =>
        match getTypeByIDOrNull tl₁ (record.getD 1 0) with
        | (tl₂, ok) => oldTypeCommonTail s tl₂ ok
  | .array record =>
    if record.length < 2 then .error .InvalidTYPETable
    else
      match getTypeByIDOrNull s.tl (record.getD 1 0) with
      | (tl₁, ok) => oldTypeCommonTail s tl₁ ok
  | .vector record =>
    if record.length < 2 then .error .InvalidTYPETable
    else
      match getTypeByIDOrNull s.tl (record.getD 1 0) with
      | (tl₁, ok) => oldTypeCommonTail s tl₁ ok

/-- The outcome of one complete pass over the type block. -/
inductive OldPassOutcome where
  | done (tl : List (Option OldSlot))
  | again (tl : List (Option OldSlot)) (numRead : Nat)
  deriving DecidableEq, Repr

/-- One complete pass: run all records, then the END_BLOCK logic
(BitcodeReader.cpp:1056-1073): `NextTypeID` must equal the table size;
if not every type has been read, a pass that resolved nothing fails with
`InvalidTYPETable` and one that made progress restarts from the cursor
snapshot. -/
def runOldPass (records : List OldTypeRec) (s : OldPassState) :
    Except BitcodeError OldPassOutcome :=
  match records with
  | [] =>
    if s.nextTypeID ≠ s.tl.length then .error .InvalidTYPETable
    else if s.numRead ≠ s.tl.length then
      if ¬ s.readAny then .error .InvalidTYPETable
      else .ok (.again s.tl s.numRead)
    else .ok (.done s.tl)
  | rec :: rest =>
    match oldTypeRecordStep rec s with
    | .error e => .error e
    | .ok s' => runOldPass rest s'

/-- The result of `ParseOldTypeTable` under a fuel bound on the number of
passes: the C++ `goto RestartScan` loop has no intrinsic bound, so the
model makes running out of passes an explicit outcome. -/
inductive OldTableResult where
  | ok (tl : List (Option OldSlot))
  | err (e : BitcodeError)
  | outOfFuel
  deriving DecidableEq, Repr

/-- The `BitcodeReader::ParseOldTypeTable` (BitcodeReader.cpp:1033-1236): run
passes over the snapshot of the record stream — `NumTypesRead` and the
table survive a restart, `NextTypeID` and `ReadAnyTypes` are reset — until
one returns or the fuel runs out.  The initial call has an empty table and
`NumTypesRead = 0` (a non-empty table is rejected at entry, line
1037-1038). -/
def ParseOldTypeTable (records : List OldTypeRec) :
    Nat → List (Option OldSlot) → Nat → OldTableResult
  | 0, _, _ => .outOfFuel
  | fuel + 1, tl, numRead =>
    match runOldPass records
        { tl := tl, nextTypeID := 0, numRead := numRead, readAny := false } with
    | .error e => .err e
    | .ok (.done tl') => .ok tl'
    | .ok (.again tl' numRead') => ParseOldTypeTable records fuel tl' numRead'

/-- The number of resolved (counted) slots of the legacy type table. -/
def countFin (tl : List (Option OldSlot)) : Nat :=
  tl.countP (fun o => o = some .fin)

/-- Whether a legacy type record references only type ids below `n` and is
not a NUMENTRY record — the well-formedness assumption under which the
multi-pass loop is shown to behave as the claim says (shrinking NUMENTRY
records and out-of-range references are exactly what the counterexample
exploits). -/
def recRefsBounded (n : Nat) : OldTypeRec → Bool
  | .numentry _ => false
  | .simple => true
  | .integer _ => true
  | .opaqueOld => true
  | .structOld record => (record.drop 1).all (· < n)
  | .pointer record => record.getD 0 0 < n
  | .funcOld record =>
    record.getD 2 0 < n && (record.drop 3).all (· < n)
  | .funcNew record =>
    record.getD 1 0 < n && (record.drop 2).all (· < n)
  | .array record => record.getD 1 0 < n
  | .vector record => record.getD 1 0 < n
  | .unknownCode => true
  | .subblock => true
  | .defineAbbrev => true

/-! C1: sign-rotated value decoding (`decodeSignRotatedValue`, lines 1469-1476) — theorems -/

/-- C1: `decodeSignRotatedValue v` returns `v >> 1` for even `v`, the
64-bit negation of `v >> 1` for odd `v ≠ 1`, and `2^63` (= `INT64_MIN`
as a word) for `v = 1`; and decoding the sign-rotated encoding of any
`int64` value gives that value back. -/
theorem decodeSignRotatedValue_spec :
    (∀ v : Nat, v % 2 = 0 → decodeSignRotatedValue v = v / 2) ∧
    (∀ v : Nat, v % 2 = 1 → v ≠ 1 →
      decodeSignRotatedValue v = (2 ^ 64 - v / 2) % 2 ^ 64) ∧
    decodeSignRotatedValue 1 = 2 ^ 63 ∧
    (∀ x : Int, -2 ^ 63 ≤ x → x < 2 ^ 63 →
      toInt64 (decodeSignRotatedValue (encodeSignRotatedValue x)) = x) := by
  refine ⟨?_, ?_, by decide, ?_⟩
  · intro v hv
    simp [decodeSignRotatedValue, hv]
  · intro v hv hne
    simp [decodeSignRotatedValue, hv, hne]
  · intro x hlo hhi
    unfold encodeSignRotatedValue decodeSignRotatedValue toInt64
    split_ifs <;> omega

/-- Witness for `decodeSignRotatedValue_spec` at concrete inputs. -/
theorem decodeSignRotatedValue_spec_witness :
    decodeSignRotatedValue 6 = 3 ∧
    decodeSignRotatedValue 7 = (2 ^ 64 - 3) % 2 ^ 64 ∧
    toInt64 (decodeSignRotatedValue (encodeSignRotatedValue (-5))) = -5 := by
  refine ⟨decodeSignRotatedValue_spec.1 6 (by decide),
          decodeSignRotatedValue_spec.2.1 7 (by decide) (by decide),
          decodeSignRotatedValue_spec.2.2.2 (-5) (by decide) (by decide)⟩

/-! Bit-extraction helper lemmas — theorems -/

/-- Masking with `2^m - 1` is reduction modulo `2^m`. -/
theorem and_two_pow_sub_one (n m : Nat) : n &&& (2 ^ m - 1) = n % 2 ^ m := by
  apply Nat.eq_of_testBit_eq
  intro i
  simp [Nat.testBit_and, Nat.testBit_two_pow_sub_one, Nat.testBit_mod_two_pow,
    Bool.and_comm]

/-- Masking with a field mask `(2^m - 1) <<< k` and shifting down by `j ≤ k`
extracts the `m`-bit field at bit `k`, leaving it at bit `k - j`. -/
theorem and_mask_shiftRight (w m k j : Nat) (hjk : j ≤ k) :
    (w &&& ((2 ^ m - 1) <<< k)) >>> j = (w >>> k % 2 ^ m) <<< (k - j) := by
  apply Nat.eq_of_testBit_eq
  intro i
  simp only [Nat.testBit_shiftRight, Nat.testBit_and, Nat.testBit_shiftLeft,
    Nat.testBit_two_pow_sub_one, Nat.testBit_mod_two_pow]
  by_cases h1 : k ≤ j + i
  · by_cases h2 : j + i - k < m
    · have hki : k - j ≤ i := by omega
      have : k + (i - (k - j)) = j + i := by omega
      simp [h1, h2, hki, this, show i - (k - j) < m by omega]
    · simp [h1, h2, show ¬(i - (k - j) < m) ∨ ¬(k - j ≤ i) by omega]
      intro hki
      simp [show ¬(i - (k - j) < m) by omega]
  · have : ¬(k - j ≤ i) := by omega
    simp [h1, this]

/-! C6: instruction alignment encoding
(ALLOCA line 2993, LOAD line 3004, STORE line 3039) — theorems -/

/-- C6: for every alignment that is zero or a power of two, decoding the
stored field `log2(a)+1` with `(1 << field) >> 1` gives back `a`, and a
stored field of `0` decodes to alignment `0`. -/
theorem alignment_roundTrip (a : Nat) (h : a = 0 ∨ ∃ k, a = 2 ^ k) :
    decodeAlignmentField (encodeAlignmentField a) = a ∧
    decodeAlignmentField 0 = 0 := by
  refine ⟨?_, by decide⟩
  rcases h with rfl | ⟨k, rfl⟩
  · decide
  · have hlog : Nat.log2 (2 ^ k) = k := by
      rw [Nat.log2_eq_log_two, Nat.log_pow (by decide)]
    have hne : 2 ^ k ≠ 0 := by positivity
    rw [encodeAlignmentField, if_neg hne, hlog, decodeAlignmentField,
      Nat.shiftLeft_eq, Nat.shiftRight_eq_div_pow]
    rw [one_mul, pow_succ]
    omega

/-- Witness for `alignment_roundTrip` at `a = 8`. -/
theorem alignment_roundTrip_witness :
    decodeAlignmentField (encodeAlignmentField 8) = 8 ∧
    decodeAlignmentField 0 = 0 :=
  alignment_roundTrip 8 (Or.inr ⟨3, rfl⟩)

/-! C7: legacy attribute decoding
(`decodeLLVMAttributesForBitcode`, lines 730-744) — theorems -/

/-- C7 counterexample: for the encoded word `4 << 16` (alignment field 4)
the code records alignment `4` — the raw field value — while the claim's
`log2(align)+1` interpretation of field `4` would give alignment `8`. -/
theorem decodeLLVMAttributes_counterexample :
    (decodeLLVMAttributesForBitcode (4 <<< 16)).1 = some 4 ∧
    claimedAttributeAlignment (4 <<< 16) = some 8 ∧
    (decodeLLVMAttributesForBitcode (4 <<< 16)).1 ≠
      claimedAttributeAlignment (4 <<< 16) := by
  refine ⟨by decide, by decide, by decide⟩

/-- C7 amended: the decoder yields the alignment attribute as the *raw*
16-bit value in bits 16..31 (attribute absent when that field is zero),
and raw attribute bits formed from bits 0..15 of the word together with
bits 32..51 shifted down by 11 (into bit positions 21..40). -/
theorem decodeLLVMAttributes_amended (w : Nat) :
    decodeLLVMAttributesForBitcode w =
      ((if w >>> 16 % 2 ^ 16 ≠ 0 then some (w >>> 16 % 2 ^ 16) else none),
       ((w >>> 32 % 2 ^ 20) <<< 21) ||| (w % 2 ^ 16)) := by
  unfold decodeLLVMAttributesForBitcode
  have h1 : (w &&& (0xffff <<< 16)) >>> 16 = w >>> 16 % 2 ^ 16 := by
    have := and_mask_shiftRight w 16 16 16 (le_refl 16)
    simpa using this
  have h2 : (w &&& (0xfffff <<< 32)) >>> 11 = (w >>> 32 % 2 ^ 20) <<< 21 := by
    have := and_mask_shiftRight w 20 32 11 (by omega)
    simpa using this
  have h3 : w &&& 0xffff = w % 2 ^ 16 := by
    have := and_two_pow_sub_one w 16
    simpa using this
  rw [h1, h2, h3]

/-! C8: `isMaterializable` (lines 3252-3258) — theorems -/

/-- C8: `isMaterializable gv` is true iff `gv` is a function that is a
declaration and has a `DeferredFunctionInfo` entry; every non-function
global value gives `false`. -/
theorem isMaterializable_spec (gv : GlobalValue) :
    (isMaterializable gv = true ↔
      gv = GlobalValue.function true true) ∧
    ((∀ d i, gv ≠ GlobalValue.function d i) → isMaterializable gv = false) := by
  cases gv with
  | function d i =>
    refine ⟨?_, fun h => absurd rfl (h d i)⟩
    cases d <;> cases i <;> simp [isMaterializable]
  | globalVariable => exact ⟨by simp [isMaterializable], fun _ => rfl⟩
  | globalAlias => exact ⟨by simp [isMaterializable], fun _ => rfl⟩

/-- Witness for `isMaterializable_spec` at a non-function global value. -/
theorem isMaterializable_spec_witness :
    isMaterializable GlobalValue.globalVariable = false :=
  (isMaterializable_spec GlobalValue.globalVariable).2 (by intro d i h; cases h)

/-! C10: `InitStreamFromBuffer` (lines 3357-3374) — theorems -/

/-- C10: every buffer whose size is not a multiple of 4 is rejected with
`InvalidBitcodeSignature`, regardless of its contents — so no content of
such a buffer is ever parsed. -/
theorem initStreamFromBuffer_size_check (buffer : List Nat)
    (h : buffer.length % 4 ≠ 0) :
    InitStreamFromBuffer buffer = .error .InvalidBitcodeSignature := by
  have hand : buffer.length &&& 3 = buffer.length % 4 := by
    have := and_two_pow_sub_one buffer.length 2
    simpa using this
  rw [InitStreamFromBuffer, if_pos (by rw [hand]; exact h)]

/-- Witness for `initStreamFromBuffer_size_check` on a 5-byte buffer that
begins with a well-formed wrapper magic. -/
theorem initStreamFromBuffer_size_check_witness :
    InitStreamFromBuffer [0xDE, 0xC0, 0x17, 0x0B, 0x00] =
      .error .InvalidBitcodeSignature :=
  initStreamFromBuffer_size_check [0xDE, 0xC0, 0x17, 0x0B, 0x00] (by decide)

/-! C4: atomic instruction records in `ParseFunctionBody`
(LOADATOMIC 3008-3029, STOREATOMIC 3043-3065, CMPXCHG 3066-3085,
ATOMICRMW 3086-3107, FENCE 3108-3119) — theorems -/

/-- C4 counterexample: a CMPXCHG record whose only non-zero entry is its
ordering code parses successfully, so the claim's "every atomic op requires
a non-zero stored alignment, otherwise InvalidRecord" is false: a CMPXCHG
record stores no alignment at all and is not rejected. -/
theorem atomic_alignment_counterexample :
    parseCMPXCHG [0, 0, 0, 0, 6, 0] 1 0 =
      .ok { vol := 0, ordering := .sequentiallyConsistent,
            synchScope := .singleThread } ∧
    (∀ i : Fin 6, i.val ≠ 4 → [0, 0, 0, 0, 6, 0].getD i.val 0 = 0) := by
  exact ⟨rfl, by decide⟩

/-- C4 amended: each atomic opcode rejects orderings outside its legal set
with `InvalidRecord` (LOADATOMIC forbids NotAtomic/Release/AcquireRelease;
STOREATOMIC forbids NotAtomic/Acquire/AcquireRelease; CMPXCHG and ATOMICRMW
forbid NotAtomic/Unordered; FENCE forbids NotAtomic/Unordered/Monotonic);
LOADATOMIC and STOREATOMIC — the only atomic records that carry an
alignment field — additionally require that field to be non-zero; every
failure is reported as `InvalidRecord`. -/
theorem atomic_ordering_legality (record : List Nat)
    (nextValueNo typeListSize : Nat) :
    (∀ r, parseLOADATOMIC record nextValueNo typeListSize = .ok r →
      r.ordering ≠ .notAtomic ∧ r.ordering ≠ .release ∧
      r.ordering ≠ .acquireRelease ∧ r.alignField ≠ 0) ∧
    (∀ r, parseSTOREATOMIC record nextValueNo typeListSize = .ok r →
      r.ordering ≠ .notAtomic ∧ r.ordering ≠ .acquire ∧
      r.ordering ≠ .acquireRelease ∧ r.alignField ≠ 0) ∧
    (∀ r, parseCMPXCHG record nextValueNo typeListSize = .ok r →
      r.ordering ≠ .notAtomic ∧ r.ordering ≠ .unordered) ∧
    (∀ r, parseATOMICRMW record nextValueNo typeListSize = .ok r →
      r.ordering ≠ .notAtomic ∧ r.ordering ≠ .unordered) ∧
    (∀ r, parseFENCE record = .ok r →
      r.ordering ≠ .notAtomic ∧ r.ordering ≠ .unordered ∧
      r.ordering ≠ .monotonic) ∧
    (∀ e, parseLOADATOMIC record nextValueNo typeListSize = .error e →
      e = .InvalidRecord) ∧
    (∀ e, parseSTOREATOMIC record nextValueNo typeListSize = .error e →
      e = .InvalidRecord) ∧
    (∀ e, parseCMPXCHG record nextValueNo typeListSize = .error e →
      e = .InvalidRecord) ∧
    (∀ e, parseATOMICRMW record nextValueNo typeListSize = .error e →
      e = .InvalidRecord) ∧
    (∀ e, parseFENCE record = .error e → e = .InvalidRecord) := by
  refine ⟨?_, ?_, ?_, ?_, ?_, ?_, ?_, ?_, ?_, ?_⟩ <;> intro r h
  · unfold parseLOADATOMIC at h
    repeat' split at h
    all_goals cases h
    rename_i hbad hz
    push_neg at hbad hz
    exact ⟨hbad.1, hbad.2.1, hbad.2.2, hz hbad.1⟩
  · unfold parseSTOREATOMIC at h
    repeat' split at h
    all_goals cases h
    rename_i hbad hz
    push_neg at hbad hz
    exact ⟨hbad.1, hbad.2.1, hbad.2.2, hz hbad.1⟩
  · unfold parseCMPXCHG at h
    repeat' split at h
    all_goals cases h
    rename_i hbad
    push_neg at hbad
    exact hbad
  · unfold parseATOMICRMW at h
    repeat' split at h
    all_goals cases h
    rename_i hbad
    push_neg at hbad
    exact hbad
  · unfold parseFENCE at h
    repeat' split at h
    all_goals cases h
    rename_i hbad
    push_neg at hbad
    exact hbad
  · unfold parseLOADATOMIC at h
    repeat' split at h
    all_goals cases h
    all_goals rfl
  · unfold parseSTOREATOMIC at h
    repeat' split at h
    all_goals cases h
    all_goals rfl
  · unfold parseCMPXCHG at h
    repeat' split at h
    all_goals cases h
    all_goals rfl
  · unfold parseATOMICRMW at h
    repeat' split at h
    all_goals cases h
    all_goals rfl
  · unfold parseFENCE at h
    repeat' split at h
    all_goals cases h
    all_goals rfl

/-- Witness for `atomic_ordering_legality`: a concrete successful
LOADATOMIC parse, with its conclusion instantiated. -/
theorem atomic_ordering_legality_witness :
    ({ alignField := 1, align := 1, vol := 0, ordering := .acquire,
       synchScope := .singleThread } : LoadAtomicInst).ordering ≠
        AtomicOrdering.notAtomic :=
  ((atomic_ordering_legality [0, 1, 0, 3, 0] 1 0).1 _ rfl).1

/-! Value-table length lemmas — theorems -/

theorem resizeValues_length (vs : List (Option CVal)) (n : Nat) :
    (resizeValues vs n).length = max vs.length n := by
  unfold resizeValues
  split <;> simp <;> omega

theorem getConstantFwdRef_length (vs : List (Option CVal)) (idx : Nat) :
    (getConstantFwdRef vs idx).length = max vs.length (idx + 1) := by
  simp only [getConstantFwdRef]
  split <;> simp [resizeValues_length]

theorem assignValue_length (vs : List (Option CVal)) (idx : Nat) (v : CVal) :
    (assignValue vs idx v).length = max vs.length (idx + 1) := by
  unfold assignValue
  simp [resizeValues_length]

theorem fwdRefs_foldl_length_mono (ids : List Nat)
    (vs : List (Option CVal)) :
    vs.length ≤ (ids.foldl (fun t i => getConstantFwdRef t i) vs).length := by
  induction ids generalizing vs with
  | nil => simp
  | cons i rest ih =>
    calc vs.length ≤ (getConstantFwdRef vs i).length := by
          rw [getConstantFwdRef_length]; omega
      _ ≤ _ := ih _

theorem constantsState_assign_values_length (s : ConstantsState) (f : Bool) :
    (s.assign f).values.length = max s.values.length (s.nextCstNo + 1) := by
  simp [ConstantsState.assign, assignValue_length]

theorem constantsState_fwdRefs_values_length (s : ConstantsState)
    (ids : List Nat) :
    s.values.length ≤ (s.fwdRefs ids).values.length :=
  fwdRefs_foldl_length_mono ids s.values

theorem constantsState_assign_values_le (s t : ConstantsState)
    (h : s.values.length ≤ t.values.length) :
    s.values.length ≤ (t.assign).values.length := by
  rw [constantsState_assign_values_length]
  omega

theorem cstSETTYPE_values_mono (tl : List Ty) (record : List Nat)
    (s s' : ConstantsState) (h : cstSETTYPE tl record s = .ok s') :
    s.values.length ≤ s'.values.length := by
  simp only [cstSETTYPE] at h
  repeat' split at h
  all_goals cases h
  exact le_rfl

theorem cstINTEGER_values_mono (record : List Nat)
    (s s' : ConstantsState) (h : cstINTEGER record s = .ok s') :
    s.values.length ≤ s'.values.length := by
  simp only [cstINTEGER] at h
  split at h <;> cases h
  exact constantsState_assign_values_le s s le_rfl

theorem cstFLOAT_values_mono (record : List Nat)
    (s s' : ConstantsState) (h : cstFLOAT record s = .ok s') :
    s.values.length ≤ s'.values.length := by
  simp only [cstFLOAT] at h
  split at h <;> cases h
  exact constantsState_assign_values_le s s le_rfl

theorem cstAGGREGATE_values_mono (record : List Nat)
    (s s' : ConstantsState) (h : cstAGGREGATE record s = .ok s') :
    s.values.length ≤ s'.values.length := by
  simp only [cstAGGREGATE] at h
  repeat' split at h
  all_goals cases h
  all_goals first
    | exact constantsState_assign_values_le s s le_rfl
    | exact constantsState_assign_values_le s _
        (constantsState_fwdRefs_values_length s _)

theorem cstSTRING_values_mono (record : List Nat)
    (s s' : ConstantsState) (h : cstSTRING record s = .ok s') :
    s.values.length ≤ s'.values.length := by
  simp only [cstSTRING] at h
  split at h <;> cases h
  exact constantsState_assign_values_le s s le_rfl

theorem cstCE_BINOP_values_mono (record : List Nat)
    (s s' : ConstantsState) (h : cstCE_BINOP record s = .ok s') :
    s.values.length ≤ s'.values.length := by
  simp only [cstCE_BINOP] at h
  split at h
  · cases h
  · split at h <;> cases h
    · exact constantsState_assign_values_le s s le_rfl
    · exact constantsState_assign_values_le s _
        (constantsState_fwdRefs_values_length s _)

theorem cstCE_CAST_values_mono (tl : List Ty) (record : List Nat)
    (s s' : ConstantsState) (h : cstCE_CAST tl record s = .ok s') :
    s.values.length ≤ s'.values.length := by
  simp only [cstCE_CAST] at h
  repeat' split at h
  all_goals cases h
  all_goals first
    | exact constantsState_assign_values_le s s le_rfl
    | exact constantsState_assign_values_le s _
        (constantsState_fwdRefs_values_length s _)

theorem cstCE_GEP_values_mono (tl : List Ty) (record : List Nat)
    (s s' : ConstantsState) (h : cstCE_GEP tl record s = .ok s') :
    s.values.length ≤ s'.values.length := by
  simp only [cstCE_GEP] at h
  repeat' split at h
  all_goals cases h
  exact constantsState_assign_values_le s _
    (constantsState_fwdRefs_values_length s _)

theorem cstCE_SELECT_values_mono (record : List Nat)
    (s s' : ConstantsState) (h : cstCE_SELECT record s = .ok s') :
    s.values.length ≤ s'.values.length := by
  simp only [cstCE_SELECT] at h
  split at h <;> cases h
  exact constantsState_assign_values_le s _
    (constantsState_fwdRefs_values_length s _)

theorem cstCE_EXTRACTELT_values_mono (tl : List Ty) (record : List Nat)
    (s s' : ConstantsState) (h : cstCE_EXTRACTELT tl record s = .ok s') :
    s.values.length ≤ s'.values.length := by
  simp only [cstCE_EXTRACTELT] at h
  repeat' split at h
  all_goals cases h
  exact constantsState_assign_values_le s _
    (constantsState_fwdRefs_values_length s _)

theorem cstCE_INSERTELT_values_mono (record : List Nat)
    (s s' : ConstantsState) (h : cstCE_INSERTELT record s = .ok s') :
    s.values.length ≤ s'.values.length := by
  simp only [cstCE_INSERTELT] at h
  split at h <;> cases h
  exact constantsState_assign_values_le s _
    (constantsState_fwdRefs_values_length s _)

theorem cstCE_SHUFVEC_EX_values_mono (tl : List Ty) (record : List Nat)
    (s s' : ConstantsState) (h : cstCE_SHUFVEC_EX tl record s = .ok s') :
    s.values.length ≤ s'.values.length := by
  simp only [cstCE_SHUFVEC_EX] at h
  split at h <;> cases h
  exact constantsState_assign_values_le s _
    (constantsState_fwdRefs_values_length s _)

theorem cstCE_CMP_values_mono (tl : List Ty) (record : List Nat)
    (s s' : ConstantsState) (h : cstCE_CMP tl record s = .ok s') :
    s.values.length ≤ s'.values.length := by
  simp only [cstCE_CMP] at h
  repeat' split at h
  all_goals cases h
  exact constantsState_assign_values_le s _
    (constantsState_fwdRefs_values_length s _)

theorem cstINLINEASM_values_mono (record : List Nat)
    (s s' : ConstantsState) (h : cstINLINEASM record s = .ok s') :
    s.values.length ≤ s'.values.length := by
  simp only [cstINLINEASM] at h
  repeat' split at h
  all_goals cases h
  exact constantsState_assign_values_le s s le_rfl

theorem cstBLOCKADDRESS_values_mono (tl : List Ty) (record : List Nat)
    (s s' : ConstantsState) (h : cstBLOCKADDRESS tl record s = .ok s') :
    s.values.length ≤ s'.values.length := by
  simp only [cstBLOCKADDRESS] at h
  repeat' split at h
  all_goals cases h
  exact constantsState_assign_values_le s _
    (le_of_le_of_eq (Nat.le_max_left _ _)
      (getConstantFwdRef_length s.values _).symm)

theorem constantsRecordStep_values_mono (tl : List Ty) (c : CstCode)
    (record : List Nat) (s s' : ConstantsState)
    (h : constantsRecordStep tl c record s = .ok s') :
    s.values.length ≤ s'.values.length := by
  cases c <;> simp only [constantsRecordStep] at h
  case unknown => cases h; exact constantsState_assign_values_le s s le_rfl
  case undef => cases h; exact constantsState_assign_values_le s s le_rfl
  case nullc => cases h; exact constantsState_assign_values_le s s le_rfl
  case settype => exact cstSETTYPE_values_mono tl record s s' h
  case integer => exact cstINTEGER_values_mono record s s' h
  case wideInteger => exact cstINTEGER_values_mono record s s' h
  case floatc => exact cstFLOAT_values_mono record s s' h
  case aggregate => exact cstAGGREGATE_values_mono record s s' h
  case stringc => exact cstSTRING_values_mono record s s' h
  case cstring => exact cstSTRING_values_mono record s s' h
  case ceBinop => exact cstCE_BINOP_values_mono record s s' h
  case ceCast => exact cstCE_CAST_values_mono tl record s s' h
  case ceGep => exact cstCE_GEP_values_mono tl record s s' h
  case ceInboundsGep => exact cstCE_GEP_values_mono tl record s s' h
  case ceSelect => exact cstCE_SELECT_values_mono record s s' h
  case ceExtractElt => exact cstCE_EXTRACTELT_values_mono tl record s s' h
  case ceInsertElt => exact cstCE_INSERTELT_values_mono record s s' h
  case ceShuffleVec => exact cstCE_INSERTELT_values_mono record s s' h
  case ceShufVecEx => exact cstCE_SHUFVEC_EX_values_mono tl record s s' h
  case ceCmp => exact cstCE_CMP_values_mono tl record s s' h
  case inlineAsm => exact cstINLINEASM_values_mono record s s' h
  case blockAddress => exact cstBLOCKADDRESS_values_mono tl record s s' h

theorem runConstants_values_mono (tl : List Ty)
    (records : List (CstCode × List Nat)) (s s' : ConstantsState)
    (h : runConstants tl records s = (s', none)) :
    s.values.length ≤ s'.values.length := by
  induction records generalizing s with
  | nil =>
    simp only [runConstants] at h
    split at h <;> cases h
    exact le_rfl
  | cons cr rest ih =>
    simp only [runConstants] at h
    split at h
    · cases h
    · rename_i t hstep
      exact le_trans (constantsRecordStep_values_mono tl cr.1 cr.2 s t hstep)
        (ih t h)

theorem funcRecordStep_values_mono (tl : List Ty) (r : FuncRec)
    (s s' : FuncState) (h : funcRecordStep tl r s = (s', none)) :
    s.values.length ≤ s'.values.length := by
  cases r
  case declareBlocks record =>
    simp only [funcRecordStep] at h
    split at h <;> cases h
    exact le_rfl
  case debugLoc record =>
    simp only [funcRecordStep] at h
    split at h <;> cases h
    exact le_rfl
  case debugLocAgain =>
    simp only [funcRecordStep] at h
    split at h <;> cases h
    exact le_rfl
  case inst i ids =>
    have hf := fwdRefs_foldl_length_mono ids s.values
    simp only [funcRecordStep] at h
    split at h
    · cases h
    · split at h <;> cases h
      · exact hf
      · rw [assignValue_length]
        exact le_trans hf (Nat.le_max_left _ _)
  case instErr =>
    simp only [funcRecordStep] at h
    cases h
  case unknownCode n =>
    simp only [funcRecordStep] at h
    cases h
  case subConstants records =>
    simp only [funcRecordStep] at h
    split at h <;> cases h
    rename_i cs hrun
    exact runConstants_values_mono tl records _ cs hrun
  case subMetadata k =>
    simp only [funcRecordStep] at h
    cases h
    exact le_rfl
  case subOther =>
    simp only [funcRecordStep] at h
    cases h
    exact le_rfl

theorem runFunctionRecords_values_mono (tl : List Ty) (items : List FuncRec)
    (s s' : FuncState) (h : runFunctionRecords tl items s = (s', none)) :
    s.values.length ≤ s'.values.length := by
  induction items generalizing s with
  | nil =>
    simp only [runFunctionRecords] at h
    cases h
    exact le_rfl
  | cons r rest ih =>
    simp only [runFunctionRecords] at h
    split at h
    · cases h
    · rename_i t hstep
      exact le_trans (funcRecordStep_values_mono tl r s t hstep) (ih t h)

/-! C2 theorems: unknown record codes -/

/-- C2 counterexample: in a FUNCTION block an unrecognized record code `99`
is *rejected* with `InvalidValue` (default arm of the instruction switch),
and in a CONSTANTS block an unrecognized code `99` is handled as UNDEF —
it appends an undef constant to the value table, changing the parser
state — so unknown records inside these two known blocks are not
"ignored leaving the state unchanged". -/
theorem unknownRecord_counterexample :
    (funcRecordStep [] (.unknownCode 99)
        { values := [], mdLen := 0, nextValueNo := 0, functionBBs := [],
          curBBNo := 0, curBB := none }).2 = some .InvalidValue ∧
    constantsRecordStep [] (.unknown 99) []
        { curTy := .intT 32, values := [], nextCstNo := 0 } =
      .ok { curTy := .intT 32, values := [some (.concrete false)],
            nextCstNo := 1 } ∧
    [some (CVal.concrete false)] ≠ ([] : List (Option CVal)) := by
  exact ⟨rfl, rfl, by simp⟩

/-- C2 amended: an unrecognized record code at MODULE level is ignored
(the default arm breaks, leaving the state unchanged, and parsing
continues); inside a CONSTANTS block the default arm falls through into
the UNDEF arm, producing an undef constant of the current type and
extending the value table by assigning slot `NextCstNo`; inside a FUNCTION
block the default arm rejects the file with `InvalidValue`. -/
theorem unknownRecord_dispatch (n : Nat) (record : List Nat)
    (tl : List Ty) (ms : ModuleState) (cs : ConstantsState) (fs : FuncState) :
    moduleRecordStep (.unknown n) record ms = .ok ms ∧
    constantsRecordStep tl (.unknown n) record cs =
      .ok { cs with
            values := assignValue cs.values cs.nextCstNo (.concrete false),
            nextCstNo := cs.nextCstNo + 1 } ∧
    (assignValue cs.values cs.nextCstNo (.concrete false)).length =
      max cs.values.length (cs.nextCstNo + 1) ∧
    funcRecordStep tl (.unknownCode n) fs = (fs, some .InvalidValue) := by
  exact ⟨rfl, rfl, assignValue_length .., rfl⟩

/-! C9 theorems: instruction emission and block advancement -/

/-- Common-tail bookkeeping, for the instruction arms the `inst`
abstraction covers (those leaving every `CurBB` access to lines 3185-3201):
such a record appends its instruction to the current basic block, and the
current block advances exactly when that instruction is a terminator
(`CurBBNo` is bumped and `CurBB` moves to the next declared block, or to
null past the last); when no current block exists the instruction is
discarded — the block lists are untouched — and parsing fails with
`InvalidInstructionWithNoBB`.  The legacy `FUNC_CODE_INST_UNWIND_2_7` arm
escapes this discipline; see `unwind27_nullCurBB`. -/
theorem instruction_block_bookkeeping (tl : List Ty) (s : FuncState)
    (i : Instr) (ids : List Nat) :
    (s.curBB = none →
      funcRecordStep tl (.inst i ids) s =
        ({ s with
           values := ids.foldl (fun vs j => getValueFwdRef vs j) s.values },
         some .InvalidInstructionWithNoBB)) ∧
    (∀ b, s.curBB = some b →
      ∃ s', funcRecordStep tl (.inst i ids) s = (s', none) ∧
        s'.functionBBs = s.functionBBs.set b (s.functionBBs.getD b [] ++ [i]) ∧
        (i.isTerm = true →
          s'.curBBNo = s.curBBNo + 1 ∧
          s'.curBB = if s.curBBNo + 1 < s'.functionBBs.length then
            some (s.curBBNo + 1) else none) ∧
        (i.isTerm = false →
          s'.curBBNo = s.curBBNo ∧ s'.curBB = s.curBB)) := by
  constructor
  · intro h
    unfold funcRecordStep
    rw [h]
  · intro b h
    unfold funcRecordStep
    rw [h]
    cases hv : i.isVoid <;> cases ht : i.isTerm <;>
      simp only [hv, ht, if_true, if_false] <;>
      exact ⟨_, rfl, by simp [List.length_set], by simp, by simp⟩

/-- Witness for `instruction_block_bookkeeping`: with no current block, a
decoded instruction record fails with `InvalidInstructionWithNoBB`. -/
theorem instruction_block_bookkeeping_witness :
    funcRecordStep [] (.inst ⟨false, false⟩ [])
        { values := [], mdLen := 0, nextValueNo := 0, functionBBs := [[]],
          curBBNo := 0, curBB := none } =
      ({ values := [], mdLen := 0, nextValueNo := 0, functionBBs := [[]],
         curBBNo := 0, curBB := none },
       some .InvalidInstructionWithNoBB) :=
  (instruction_block_bookkeeping [] _ ⟨false, false⟩ []).1 rfl

/-- C9: the claim's no-current-block clause is the code's own stated policy
(the common tail's comment and `Error(InvalidInstructionWithNoBB)`,
BitcodeReader.cpp:3185-3190) and holds for every instruction arm deferring
to that tail, but the legacy `FUNC_CODE_INST_UNWIND_2_7` arm slips past it:
line 2913 executes `CurBB->getInstList().push_back(LP)` with no null check,
so decoding that record with no current basic block dereferences a null
pointer — undefined behaviour, never any defined error return, let alone
`InvalidInstructionWithNoBB`.  Evaluated at the failing input: the state
after `DECLAREBLOCKS 1` and a `ret` terminating the only declared block
(`curBB = none`).  The second conjunct records that the crash outcome is
distinct from every defined continuation or error return. -/
theorem unwind27_nullCurBB :
    funcRecordStepFull [] .unwind27
        { values := [], mdLen := 0, nextValueNo := 0,
          functionBBs := [[⟨true, true⟩]], curBBNo := 1, curBB := none } =
      .nullDeref ∧
    ∀ (s : FuncState) (e : BitcodeError),
      FuncStepOutcome.nullDeref ≠ .next s ∧
      FuncStepOutcome.nullDeref ≠ .errorOut s e := by
  refine ⟨rfl, fun s e => ⟨?_, ?_⟩⟩ <;> intro h <;> cases h

/-- With a current block, one `UNWIND_2_7` record emits *two* instructions
into it — the landingpad (a non-void non-terminator, pushed inside the arm
and never `AssignValue`d) and the resume (a void terminator, through the
common tail) — and the block then advances (here past the last declared
block, so `CurBB` goes null); the value table and `NextValueNo` are
untouched. -/
theorem unwind27_two_instructions :
    funcRecordStepFull [] .unwind27
        { values := [], mdLen := 0, nextValueNo := 0,
          functionBBs := [[]], curBBNo := 0, curBB := some 0 } =
      .next { values := [], mdLen := 0, nextValueNo := 0,
              functionBBs := [[⟨false, false⟩, ⟨true, true⟩]],
              curBBNo := 1, curBB := none } := rfl

/-! C5 theorems: function-body isolation -/

/-- C5 counterexample: an invocation of `ParseFunctionBody` that fails (here
on a `DECLAREBLOCKS` record declaring zero blocks) returns with the value
table still holding the pushed formal argument: its length after the call
is 1, not the 0 it was before the call — the truncation of line 3241 runs
only on the success path. -/
theorem parseFunctionBody_counterexample :
    (ParseFunctionBody [] 1 [.declareBlocks [0]] [] 0).2 =
      some .InvalidRecord ∧
    (ParseFunctionBody [] 1 [.declareBlocks [0]] [] 0).1.values.length = 1 ∧
    ([] : List (Option CVal)).length = 0 ∧ (1 : Nat) ≠ 0 := by
  exact ⟨rfl, rfl, rfl, by decide⟩

/-- C5 amended: for every invocation of `ParseFunctionBody` that returns
*successfully*, the value-table length after the call equals its length
before the call, the metadata value table is back at the baseline captured
at entry, and the function-local basic-block list has been freed. -/
theorem parseFunctionBody_isolation (tl : List Ty) (numArgs : Nat)
    (items : List FuncRec) (values0 : List (Option CVal)) (mdLen0 : Nat)
    (s : FuncState)
    (h : ParseFunctionBody tl numArgs items values0 mdLen0 = (s, none)) :
    s.values.length = values0.length ∧ s.mdLen = mdLen0 ∧
    s.functionBBs = [] := by
  simp only [ParseFunctionBody] at h
  split at h
  · simp_all
  · rename_i t hrun
    split at h
    · simp_all
    · cases h
      have hmono := runFunctionRecords_values_mono tl items _ t hrun
      simp only [List.length_append, List.length_replicate] at hmono
      refine ⟨?_, rfl, rfl⟩
      simp only [List.length_take]
      omega

/-- Witness for `parseFunctionBody_isolation`: a concrete successful parse
of a one-block function body. -/
theorem parseFunctionBody_isolation_witness :
    ({ values := [], mdLen := 0, nextValueNo := 0, functionBBs := [],
       curBBNo := 1, curBB := none } : FuncState).values.length = 0 ∧
    ({ values := [], mdLen := 0, nextValueNo := 0, functionBBs := [],
       curBBNo := 1, curBB := none } : FuncState).mdLen = 0 ∧
    ({ values := [], mdLen := 0, nextValueNo := 0, functionBBs := [],
       curBBNo := 1, curBB := none } : FuncState).functionBBs = [] :=
  parseFunctionBody_isolation [] 0
    [.declareBlocks [1], .inst ⟨true, true⟩ []] [] 0 _ rfl

/-! C3 theorems: the legacy type-table multi-pass loop -/

theorem countFin_le_length (tl : List (Option OldSlot)) :
    countFin tl ≤ tl.length :=
  List.countP_le_length _

theorem countFin_nil : countFin [] = 0 := rfl

theorem countFin_replicate_none (n : Nat) :
    countFin (List.replicate n none) = 0 := by
  induction n with
  | zero => rfl
  | succ k ih => simp [countFin, List.replicate_succ, List.countP_cons, ih]

theorem ite_none_eq_fin :
    (if (none : Option OldSlot) = some .fin then 1 else 0) = 0 := rfl

theorem ite_ph_eq_fin :
    (if (some OldSlot.ph : Option OldSlot) = some .fin then 1 else 0) = 0 := rfl

theorem countFin_set (tl : List (Option OldSlot)) (i : Nat) (v : Option OldSlot)
    (h : i < tl.length) :
    countFin (tl.set i v) + (if tl.getD i none = some .fin then 1 else 0) =
      countFin tl + (if v = some .fin then 1 else 0) := by
  induction tl generalizing i with
  | nil => simp at h
  | cons a t ih =>
    cases i with
    | zero =>
      simp only [List.set, countFin, List.countP_cons, List.getD_cons_zero]
      split_ifs <;> simp_all [countFin]
    | succ j =>
      simp only [List.set, countFin, List.countP_cons, List.getD_cons_succ]
      have := ih j (by simpa using h)
      simp only [countFin] at this
      split_ifs at this ⊢ <;> omega

theorem resizeTL_length (tl : List (Option OldSlot)) (n : Nat) :
    (resizeTL tl n).length = n := by
  unfold resizeTL
  split <;> simp <;> omega

theorem resizeTL_of_length_eq (tl : List (Option OldSlot)) (n : Nat)
    (h : tl.length = n) : resizeTL tl n = tl := by
  unfold resizeTL
  rw [if_pos (le_of_eq h.symm), ← h, List.take_length]

theorem resizeTL_nil (n : Nat) : resizeTL [] n = List.replicate n none := by
  unfold resizeTL
  split <;> simp_all

theorem getTypeByIDOrNull_bounded (tl : List (Option OldSlot)) (id : Nat)
    (h : id < tl.length) :
    getTypeByIDOrNull tl id = (tl, (tl.getD id none).isSome) := by
  simp only [getTypeByIDOrNull]
  rw [if_neg (by omega)]

theorem gatherElts_bounded (ids : List Nat) (tl : List (Option OldSlot))
    (h : ∀ id ∈ ids, id < tl.length) :
    (gatherElts tl ids).1 = tl := by
  induction ids with
  | nil => rfl
  | cons id rest ih =>
    have hb := getTypeByIDOrNull_bounded tl id (h id (by simp))
    rcases hid : tl.getD id none with _ | w
    · simp only [gatherElts, hb, hid, Option.isSome_none]
    · simp only [gatherElts, hb, hid, Option.isSome_some]
      exact ih fun j hj => h j (by simp [hj])

theorem oldTypeCommonTail_prop (s : OldPassState) (tl' : List (Option OldSlot))
    (b : Bool) (s' : OldPassState)
    (hlen : tl'.length = s.tl.length) (hcnt : countFin tl' = countFin s.tl)
    (h : oldTypeCommonTail s tl' b = .ok s') :
    s'.tl.length = s.tl.length ∧
    (countFin s.tl = s.numRead → countFin s'.tl = s'.numRead) ∧
    ((s'.numRead = s.numRead ∧ s'.readAny = s.readAny) ∨
     (s'.numRead = s.numRead + 1 ∧ s'.readAny = true)) := by
  simp only [oldTypeCommonTail] at h
  split at h
  · cases h
  · rename_i hidx
    split at h <;> cases h
    · rename_i hfill
      have hset := countFin_set tl' s.nextTypeID (some .fin) (by omega)
      rw [hfill.2, ite_none_eq_fin, if_pos rfl] at hset
      refine ⟨by simp [hlen], fun hc => ?_, Or.inr ⟨rfl, rfl⟩⟩
      simp only []
      omega
    · exact ⟨hlen, fun hc => by simpa [hcnt] using hc, Or.inl ⟨rfl, rfl⟩⟩

theorem oldTypeRecordStep_prop (n : Nat) (rec : OldTypeRec)
    (hr : recRefsBounded n rec = true)
    (s s' : OldPassState) (hlen : s.tl.length = n)
    (h : oldTypeRecordStep rec s = .ok s') :
    s'.tl.length = n ∧
    (countFin s.tl = s.numRead → countFin s'.tl = s'.numRead) ∧
    ((s'.numRead = s.numRead ∧ s'.readAny = s.readAny) ∨
     (s'.numRead = s.numRead + 1 ∧ s'.readAny = true)) := by
  have tail := fun tl' b hl hc h' =>
    oldTypeCommonTail_prop s tl' b s' hl hc h'
  cases rec
  case subblock =>
    cases h
    exact ⟨hlen, fun hc => hc, Or.inl ⟨rfl, rfl⟩⟩
  case defineAbbrev =>
    cases h
    exact ⟨hlen, fun hc => hc, Or.inl ⟨rfl, rfl⟩⟩
  case unknownCode => cases h
  case numentry record => simp [recRefsBounded] at hr
  case simple =>
    simp only [oldTypeRecordStep] at h
    have := tail s.tl true rfl rfl h
    exact ⟨hlen ▸ this.1, this.2.1, this.2.2⟩
  case integer record =>
    simp only [oldTypeRecordStep] at h
    split at h
    · cases h
    · have := tail s.tl true rfl rfl h
      exact ⟨hlen ▸ this.1, this.2.1, this.2.2⟩
  case opaqueOld =>
    simp only [oldTypeRecordStep] at h
    split at h
    all_goals
      have := tail s.tl _ rfl rfl h
      exact ⟨hlen ▸ this.1, this.2.1, this.2.2⟩
  case structOld record =>
    simp only [recRefsBounded, List.all_eq_true, decide_eq_true_eq] at hr
    simp only [oldTypeRecordStep] at h
    split at h
    · have := tail s.tl false rfl rfl h
      exact ⟨hlen ▸ this.1, this.2.1, this.2.2⟩
    · rename_i hidx
      split at h
      · have := tail s.tl false rfl rfl h
        exact ⟨hlen ▸ this.1, this.2.1, this.2.2⟩
      · rename_i hnotfin
        -- tl₁: the placeholder-installed table
        set tl₁ := if s.tl.getD s.nextTypeID none = none then
            s.tl.set s.nextTypeID (some .ph) else s.tl with htl₁
        have hlen₁ : tl₁.length = s.tl.length := by
          rw [htl₁]; split <;> simp
        have hcnt₁ : countFin tl₁ = countFin s.tl := by
          rw [htl₁]
          split
          · rename_i hnone
            have := countFin_set s.tl s.nextTypeID (some .ph) (by omega)
            rw [hnone] at this
            simpa using this
          · rfl
        have hg : (gatherElts tl₁ (record.drop 1)).1 = tl₁ :=
          gatherElts_bounded _ _ fun j hj => by
            rw [hlen₁, hlen]; exact hr j hj
        rcases hge : gatherElts tl₁ (record.drop 1) with ⟨tl₂, ok⟩
        have htl₂ : tl₂ = tl₁ := by rw [← hg, hge]
        rw [hge] at h
        cases ok
        · subst htl₂
          have h' : oldTypeCommonTail s tl₁ false = .ok s' := h
          have := tail tl₁ false hlen₁ hcnt₁ h'
          exact ⟨hlen ▸ this.1, this.2.1, this.2.2⟩
        · subst htl₂
          have h' : oldTypeCommonTail s (tl₁.set s.nextTypeID none) true =
              .ok s' := h
          -- slot NextTypeID in tl₁ is the opaque placeholder
          have hslot : tl₁.getD s.nextTypeID none = some .ph := by
            rw [htl₁]
            split
            · rename_i hnone
              rw [List.getD_eq_getElem?_getD, List.getElem?_set_self (by omega)]
              rfl
            · rename_i hnone
              rcases ho : s.tl.getD s.nextTypeID none with _ | v
              · exact absurd ho hnone
              · cases v
                · rfl
                · exact absurd ho hnotfin
          have hsetlen : (tl₁.set s.nextTypeID none).length = s.tl.length := by
            simp [hlen₁]
          have hsetcnt : countFin (tl₁.set s.nextTypeID none) =
              countFin s.tl := by
            have hcs := countFin_set tl₁ s.nextTypeID none
              (by rw [hlen₁]; omega)
            rw [hslot, ite_ph_eq_fin, ite_none_eq_fin] at hcs
            omega
          have := tail (tl₁.set s.nextTypeID none) true hsetlen hsetcnt h'
          exact ⟨hlen ▸ this.1, this.2.1, this.2.2⟩
  case pointer record =>
    simp only [recRefsBounded, decide_eq_true_eq] at hr
    simp only [oldTypeRecordStep] at h
    split at h
    · cases h
    · rw [getTypeByIDOrNull_bounded s.tl _ (by omega)] at h
      have := tail s.tl _ rfl rfl h
      exact ⟨hlen ▸ this.1, this.2.1, this.2.2⟩
  case funcOld record =>
    simp only [recRefsBounded, Bool.and_eq_true, List.all_eq_true,
      decide_eq_true_eq] at hr
    simp only [oldTypeRecordStep] at h
    split at h
    · cases h
    · have hg : (gatherElts s.tl (record.drop 3)).1 = s.tl :=
        gatherElts_bounded _ _ fun j hj => by rw [hlen]; exact hr.2 j hj
      rcases hge : gatherElts s.tl (record.drop 3) with ⟨tl₁, ok⟩
      have htl₁ : tl₁ = s.tl := by rw [← hg, hge]
      subst htl₁
      rw [hge] at h
      cases ok
      · have h' : oldTypeCommonTail s s.tl false = .ok s' := h
        have := tail s.tl false rfl rfl h'
        exact ⟨hlen ▸ this.1, this.2.1, this.2.2⟩
      · have h' : (match getTypeByIDOrNull s.tl (record.getD 2 0) with
            | (tl₂, ok) => oldTypeCommonTail s tl₂ ok) = .ok s' := h
        rw [getTypeByIDOrNull_bounded s.tl _ (by omega)] at h'
        have := tail s.tl _ rfl rfl h'
        exact ⟨hlen ▸ this.1, this.2.1, this.2.2⟩
  case funcNew record =>
    simp only [recRefsBounded, Bool.and_eq_true, List.all_eq_true,
      decide_eq_true_eq] at hr
    simp only [oldTypeRecordStep] at h
    split at h
    · cases h
    · have hg : (gatherElts s.tl (record.drop 2)).1 = s.tl :=
        gatherElts_bounded _ _ fun j hj => by rw [hlen]; exact hr.2 j hj
      rcases hge : gatherElts s.tl (record.drop 2) with ⟨tl₁, ok⟩
      have htl₁ : tl₁ = s.tl := by rw [← hg, hge]
      subst htl₁
      rw [hge] at h
      cases ok
      · have h' : oldTypeCommonTail s s.tl false = .ok s' := h
        have := tail s.tl false rfl rfl h'
        exact ⟨hlen ▸ this.1, this.2.1, this.2.2⟩
      · have h' : (match getTypeByIDOrNull s.tl (record.getD 1 0) with
            | (tl₂, ok) => oldTypeCommonTail s tl₂ ok) = .ok s' := h
        rw [getTypeByIDOrNull_bounded s.tl _ (by omega)] at h'
        have := tail s.tl _ rfl rfl h'
        exact ⟨hlen ▸ this.1, this.2.1, this.2.2⟩
  case array record =>
    simp only [recRefsBounded, decide_eq_true_eq] at hr
    simp only [oldTypeRecordStep] at h
    split at h
    · cases h
    · rw [getTypeByIDOrNull_bounded s.tl _ (by omega)] at h
      have := tail s.tl _ rfl rfl h
      exact ⟨hlen ▸ this.1, this.2.1, this.2.2⟩
  case vector record =>
    simp only [recRefsBounded, decide_eq_true_eq] at hr
    simp only [oldTypeRecordStep] at h
    split at h
    · cases h
    · rw [getTypeByIDOrNull_bounded s.tl _ (by omega)] at h
      have := tail s.tl _ rfl rfl h
      exact ⟨hlen ▸ this.1, this.2.1, this.2.2⟩

/-- Pass-level invariants of `runOldPass` on a record list whose entries are
reference-bounded and NUMENTRY-free: the table keeps its length and
`NumTypesRead` keeps counting its resolved slots; a completed pass either
finishes with every slot counted, or restarts having strictly increased
`NumTypesRead` (when the pass started with `ReadAnyTypes` unset). -/
theorem runOldPass_prop (n : Nat) (records : List OldTypeRec)
    (hB : ∀ r ∈ records, recRefsBounded n r = true) :
    ∀ s : OldPassState, s.tl.length = n → countFin s.tl = s.numRead →
    ∀ out, runOldPass records s = .ok out →
      (∀ tl', out = .done tl' → tl'.length = n ∧ countFin tl' = n) ∧
      (∀ tl' r', out = .again tl' r' →
        tl'.length = n ∧ countFin tl' = r' ∧ r' ≠ n ∧ s.numRead ≤ r' ∧
        (s.readAny = false → s.numRead < r')) := by
  induction records with
  | nil =>
    intro s hlen hcnt out h
    simp only [runOldPass] at h
    split at h
    · cases h
    · rename_i hnext
      split at h
      · rename_i hnr
        split at h
        · cases h
        · rename_i hra
          cases h
          constructor
          · intro tl' hd
            cases hd
          · intro tl' r' ha
            cases ha
            refine ⟨hlen, hcnt, by omega, le_rfl, fun hfalse => ?_⟩
            simp [hfalse] at hra
      · rename_i hnr
        cases h
        constructor
        · intro tl' hd
          cases hd
          exact ⟨hlen, by omega⟩
        · intro tl' r' ha
          cases ha
  | cons rec rest ih =>
    intro s hlen hcnt out h
    simp only [runOldPass] at h
    split at h
    · cases h
    · rename_i s' hstep
      have hp := oldTypeRecordStep_prop n rec (hB rec (by simp)) s s' hlen hstep
      have ihp := ih (fun r hr => hB r (by simp [hr])) s' hp.1
        (hp.2.1 hcnt) out h
      refine ⟨ihp.1, fun tl' r' ha => ?_⟩
      have := ihp.2 tl' r' ha
      rcases hp.2.2 with ⟨hnr, hra⟩ | ⟨hnr, hra⟩
      · exact ⟨this.1, this.2.1, this.2.2.1, by omega,
          fun hf => by
            have := this.2.2.2.2 (by rw [hra, hf])
            omega⟩
      · exact ⟨this.1, this.2.1, this.2.2.1, by omega, fun hf => by omega⟩

/-- The outer restart loop, under the same well-formedness assumption and
with the block led by its single NUMENTRY record: with fuel covering
`NumTypesRead`'s remaining headroom the loop never runs out, and a
successful return has every one of the `n` slots counted. -/
theorem parseOldTypeTable_fuel (n : Nat) (rest : List OldTypeRec)
    (hB : ∀ r ∈ rest, recRefsBounded n r = true) :
    ∀ (fuel numRead : Nat) (tl : List (Option OldSlot)),
      countFin (resizeTL tl n) = numRead → n + 1 - numRead ≤ fuel →
      ParseOldTypeTable (.numentry [n] :: rest) fuel tl numRead ≠
        .outOfFuel ∧
      (∀ tl', ParseOldTypeTable (.numentry [n] :: rest) fuel tl numRead =
          .ok tl' → tl'.length = n ∧ countFin tl' = n) := by
  intro fuel
  induction fuel with
  | zero =>
    intro numRead tl hcnt hfuel
    have hle : countFin (resizeTL tl n) ≤ n := by
      have := countFin_le_length (resizeTL tl n)
      rw [resizeTL_length] at this
      exact this
    omega
  | succ fuel ih =>
    intro numRead tl hcnt hfuel
    have hstep : oldTypeRecordStep (.numentry [n])
        (⟨tl, 0, numRead, false⟩ : OldPassState) =
        .ok (⟨resizeTL tl n, 0, numRead, false⟩ : OldPassState) := by
      simp [oldTypeRecordStep]
    have hrun : runOldPass (OldTypeRec.numentry [n] :: rest)
        (⟨tl, 0, numRead, false⟩ : OldPassState) =
        runOldPass rest (⟨resizeTL tl n, 0, numRead, false⟩ : OldPassState) := by
      simp only [runOldPass, hstep]
    simp only [ParseOldTypeTable, hrun]
    rcases hout : runOldPass rest
        (⟨resizeTL tl n, 0, numRead, false⟩ : OldPassState) with e | out
    · exact ⟨by simp, by simp⟩
    · have hp := runOldPass_prop n rest hB _ (resizeTL_length tl n) hcnt
        out hout
      cases out with
      | done tl' =>
        have := hp.1 tl' rfl
        exact ⟨by simp, fun tl'' htl'' => by
          simp only [Except.ok.injEq] at htl''
          cases htl''
          exact this⟩
      | again tl' r' =>
        have ha := hp.2 tl' r' rfl
        have hlen' : tl'.length = n := ha.1
        have hlt : numRead < r' := by simpa using ha.2.2.2.2 rfl
        have hrec := ih r' tl'
          (by rw [resizeTL_of_length_eq tl' n hlen']; exact ha.2.1)
          (by omega)
        exact hrec

/-- C3 counterexample: `ParseOldTypeTable` can return successfully with an
unfilled slot.  The block `NUMENTRY 2, VOID, NUMENTRY 0, NUMENTRY 2, FLOAT`
declares two slots; the shrinking `NUMENTRY 0` re-nulls the slot that VOID
had filled, so `NumTypesRead` double-counts and reaches the table size in
the very first pass: the reader returns success with `TypeList[0]` still
null, contradicting "on successful return all NUMENTRY slots are
filled". -/
theorem parseOldTypeTable_counterexample :
    ParseOldTypeTable
        [.numentry [2], .simple, .numentry [0], .numentry [2], .simple]
        1 [] 0 = .ok [none, some .fin] ∧
    List.getD [none, some OldSlot.fin] 0 none = none ∧
    List.length [none, some OldSlot.fin] = 2 := by
  exact ⟨rfl, rfl, rfl⟩

/-- C3 amended: provided the legacy type block is led by its only NUMENTRY
record, declaring `n` slots, and every type id referenced by its records is
below `n` (the counterexample shows the claim fails without this: shrinking
NUMENTRY records or out-of-range references can yield success with null
slots, and can even make the loop run forever), `ParseOldTypeTable` behaves
as claimed: it terminates within `n + 2` passes; on successful return all
`n` declared slots are filled; each completed pass that restarts from the
snapshot has resolved at least one new slot; and a completed pass that
resolved nothing new while unresolved slots remain fails with
`InvalidTYPETable`. -/
theorem parseOldTypeTable_spec (n : Nat) (rest : List OldTypeRec)
    (hB : ∀ r ∈ rest, recRefsBounded n r = true) :
    (ParseOldTypeTable (.numentry [n] :: rest) (n + 2) [] 0 ≠ .outOfFuel) ∧
    (∀ tl', ParseOldTypeTable (.numentry [n] :: rest) (n + 2) [] 0 =
        .ok tl' →
      tl'.length = n ∧ ∀ i, i < n → tl'.getD i none = some .fin) ∧
    (∀ (tl : List (Option OldSlot)) (r : Nat) (tl' : List (Option OldSlot))
        (r' : Nat),
      tl.length = n → countFin tl = r →
      runOldPass (.numentry [n] :: rest)
          { tl := tl, nextTypeID := 0, numRead := r, readAny := false } =
        .ok (.again tl' r') →
      r < r') ∧
    (∀ s : OldPassState, s.nextTypeID = s.tl.length →
      s.numRead ≠ s.tl.length → s.readAny = false →
      runOldPass [] s = .error .InvalidTYPETable) := by
  have hcnt0 : countFin (resizeTL [] n) = 0 := by
    rw [resizeTL_nil, countFin_replicate_none]
  have hmain := parseOldTypeTable_fuel n rest hB (n + 2) 0 [] hcnt0 (by omega)
  refine ⟨hmain.1, fun tl' htl' => ?_, ?_, ?_⟩
  · have hp := hmain.2 tl' htl'
    refine ⟨hp.1, fun i hi => ?_⟩
    have hall : ∀ a ∈ tl', (a = some OldSlot.fin : Bool) = true := by
      have : countFin tl' = tl'.length := by rw [hp.2, hp.1]
      exact List.countP_eq_length.mp this
    have hi' : i < tl'.length := by omega
    rw [List.getD_eq_getElem?_getD, List.getElem?_eq_getElem hi']
    have := hall tl'[i] (List.getElem_mem hi')
    simpa using this
  · intro tl r tl' r' hlen hcnt hrun
    have hstep : oldTypeRecordStep (.numentry [n])
        (⟨tl, 0, r, false⟩ : OldPassState) =
        .ok (⟨resizeTL tl n, 0, r, false⟩ : OldPassState) := by
      simp [oldTypeRecordStep]
    rw [show runOldPass (OldTypeRec.numentry [n] :: rest)
        (⟨tl, 0, r, false⟩ : OldPassState) =
        runOldPass rest (⟨resizeTL tl n, 0, r, false⟩ : OldPassState) from by
      simp only [runOldPass, hstep]] at hrun
    have hp := runOldPass_prop n rest hB _ (resizeTL_length tl n)
      (by rw [resizeTL_of_length_eq tl n hlen]; exact hcnt) _ hrun
    exact (hp.2 tl' r' rfl).2.2.2.2 rfl
  · intro s h1 h2 h3
    simp only [runOldPass]
    rw [if_neg (by omega), if_pos h2, if_pos (by simp [h3])]

/-- On the cyclic block `NUMENTRY 4, POINTER→2, VOID, VOID, VOID,
NUMENTRY 2, NUMENTRY 4` every pass from the recurring table
`[null, fin, null, null]` re-fills the two slots that the shrinking
NUMENTRY re-nulled, so the pass always reports progress and restarts with
`NumTypesRead` larger by two — stepping over the table size forever. -/
theorem runOldPass_cycle (r : Nat) (h : r % 2 = 1) :
    runOldPass
      [.numentry [4], .pointer [2], .simple, .simple, .simple,
       .numentry [2], .numentry [4]]
      ⟨[none, some .fin, none, none], 0, r, false⟩ =
    .ok (.again [none, some .fin, none, none] (r + 2)) := by
  have h4 : ¬ (r + 1 + 1 = 4) := by omega
  simp [runOldPass, oldTypeRecordStep, oldTypeCommonTail, resizeTL,
    getTypeByIDOrNull, h4]

/-- The multi-pass loop of `ParseOldTypeTable` does not terminate on every
input: on the block of `runOldPass_cycle` it restarts forever (every fuel
bound is exhausted), because `NumTypesRead` double-counts the re-nulled
slots and steps from 3 over the table size 4 directly to 5, 7, 9, ….  The
C++ loop has no other exit, so the reader hangs on this (malformed but
finite) input. -/
theorem parseOldTypeTable_nonterminating (fuel : Nat) :
    ParseOldTypeTable
      [.numentry [4], .pointer [2], .simple, .simple, .simple,
       .numentry [2], .numentry [4]] fuel [] 0 = .outOfFuel := by
  have key : ∀ f r, r % 2 = 1 →
      ParseOldTypeTable
        [.numentry [4], .pointer [2], .simple, .simple, .simple,
         .numentry [2], .numentry [4]] f
        [none, some .fin, none, none] r = .outOfFuel := by
    intro f
    induction f with
    | zero => intro r h; rfl
    | succ f ih =>
      intro r h
      simp only [ParseOldTypeTable, runOldPass_cycle r h]
      exact ih (r + 2) (by omega)
  cases fuel with
  | zero => rfl
  | succ f =>
    have h1 : runOldPass
        [.numentry [4], .pointer [2], .simple, .simple, .simple,
         .numentry [2], .numentry [4]]
        ⟨[], 0, 0, false⟩ =
        .ok (.again [none, some .fin, none, none] 3) := by rfl
    simp only [ParseOldTypeTable, h1]
    exact key f 3 (by decide)

/-- Witness for `parseOldTypeTable_spec`: the well-formed one-slot block
`NUMENTRY 1, VOID` terminates (it does not run out of fuel). -/
theorem parseOldTypeTable_spec_witness :
    ParseOldTypeTable [.numentry [1], .simple] 3 [] 0 ≠ .outOfFuel :=
  (parseOldTypeTable_spec 1 [.simple] (by intro r hr; simp at hr; simp [hr,
    recRefsBounded])).1

end BitReader30
